import Mathlib

/-!
Verification of the change-detection and persistence core of
`sreality_scraper.py` (class `SrealityScraper`).

The Python program keeps three pieces of state:
* the *current snapshot* — a dict mapping property id (a string) to a
  property record (itself a dict of scalar fields),
* the *previous snapshot* — the snapshot persisted by the last cycle,
* the *history* — a dict mapping property id to the list of all records
  ever observed for that id.

`check_and_notify` loads previous data and history, fetches the current
snapshot, and (unless the fetch came back empty) classifies every id as
new / price-changed / removed, appends each current record to the history,
and saves the new snapshot and history as JSON
(`json.dump(..., ensure_ascii=False, indent=2)`).

Python dicts are embedded as association lists in insertion order
(`Dict α`), with first-match lookup and in-place update / append-at-end
assignment, which is exactly the observable behaviour of a `dict` whose
keys are unique.
-/

namespace SR

/-- Insertion-ordered string-keyed map: the embedding of a Python `dict`. -/
abbrev Dict (α : Type) : Type := List (String × α)

/-- `d[k]` / `k in d`: first-match lookup. -/
def Dict.find? {α : Type} : Dict α → String → Option α
  | [], _ => none
  | (k', v) :: rest, k => if k' = k then some v else Dict.find? rest k

/-- `k in d` as a Bool. -/
def Dict.hasKey {α : Type} (d : Dict α) (k : String) : Bool :=
  (Dict.find? d k).isSome

/-- `d[k] = v`: replace the value at an existing key in place, keeping its
position (as CPython dicts do), or append a fresh key at the end. -/
def Dict.set {α : Type} : Dict α → String → α → Dict α
  | [], k, v => [(k, v)]
  | (k', v') :: rest, k, v =>
    if k' = k then (k, v) :: rest else (k', v') :: Dict.set rest k v

/-- The keys of the dict, in insertion order. -/
def Dict.keysOf {α : Type} (d : Dict α) : List String := d.map (·.1)

/-- Value of the `area` field: the API's `usable_area` is a number, the
default (`item.get('usable_area', 'N/A')`) a string. -/
inductive AreaVal : Type
  | num (n : Int)
  | txt (s : String)
deriving DecidableEq, Repr

/-- One property record, as built by `fetch_properties`:
`{'id': ..., 'name': ..., 'price': ..., 'locality': ..., 'url': ...,
  'area': ..., 'image_url': ..., 'description': ..., 'last_updated': ...}`.
`price` is an `Int` (Python ints are exact); `image_url` may be `None`. -/
structure Record : Type where
  id : String
  name : String
  price : Int
  locality : String
  url : String
  area : AreaVal
  image_url : Option String
  description : String
  last_updated : String
deriving DecidableEq, Repr

/-- A snapshot: dict from property id to record. -/
abbrev Snapshot : Type := Dict Record

/-- The history: dict from property id to the list of observed records. -/
abbrev History : Type := Dict (List Record)

/-- One entry of `price_changes`: `{**prop, 'old_price': ..., 'price_diff': ...}` —
the current record's fields plus the old price and the signed difference. -/
structure PriceChange : Type where
  prop : Record
  old_price : Int
  price_diff : Int
deriving DecidableEq, Repr

/-- The three alert lists produced by one detection pass. -/
structure Diff : Type where
  new_properties : List Record
  price_changes : List PriceChange
  removed_properties : List Record
deriving DecidableEq, Repr

/-- Loop state of the first loop of `check_and_notify`: the history being
mutated plus the two alert lists built so far. -/
structure DState : Type where
  history : History
  new_properties : List Record
  price_changes : List PriceChange
deriving DecidableEq, Repr

/-- One iteration of `for prop_id, prop in current_data.items()`:

```
if prop_id not in history:
    history[prop_id] = []
history[prop_id].append(prop.copy())
if prop_id not in previous_data:
    new_properties.append(prop)
elif previous_data[prop_id]['price'] != prop['price']:
    old_price = previous_data[prop_id]['price']
    price_diff = prop['price'] - old_price
    price_changes.append({**prop, 'old_price': old_price, 'price_diff': price_diff})
```

Creating the missing list and then appending is the same as setting the key
to `(old value or []) ++ [prop]`. `prop.copy()` is a shallow copy, equal to
`prop` as a value (aliasing is treated separately in the heap model below). -/
def detectOne (previous_data : Snapshot) (st : DState) (e : String × Record) : DState :=
  let prop_id := e.1
  let prop := e.2
  let history := Dict.set st.history prop_id ((Dict.find? st.history prop_id).getD [] ++ [prop])
  match Dict.find? previous_data prop_id with
  | none =>
      { history := history
        new_properties := st.new_properties ++ [prop]
        price_changes := st.price_changes }
  | some prev =>
      if prev.price ≠ prop.price then
        { history := history
          new_properties := st.new_properties
          price_changes := st.price_changes ++
            [{ prop := prop, old_price := prev.price, price_diff := prop.price - prev.price }] }
      else
        { st with history := history }

/-- The detection pass of `check_and_notify` (its two loops), run after the
empty-fetch guard: returns the alert lists and the updated history.

```
for prop_id, prop in current_data.items(): ...   (detectOne)
for prop_id, prop in previous_data.items():
    if prop_id not in current_data:
        removed_properties.append(prop)
``` -/
def detectPass (previous_data current_data : Snapshot) (history : History) :
    Diff × History :=
  let st := current_data.foldl (detectOne previous_data)
    { history := history, new_properties := [], price_changes := [] }
  let removed_properties :=
    (previous_data.filter (fun e => ¬ Dict.hasKey current_data e.1)).map (·.2)
  ({ new_properties := st.new_properties
     price_changes := st.price_changes
     removed_properties := removed_properties },
   st.history)

/-! ### Dictionary lemmas -/

theorem Dict.find?_set_self {α : Type} (d : Dict α) (k : String) (v : α) :
    Dict.find? (Dict.set d k v) k = some v := by
  induction d with
  | nil => simp [Dict.set, Dict.find?]
  | cons e rest ih =>
    by_cases h : e.1 = k
    · simp [Dict.set, Dict.find?, h]
    · simp [Dict.set, Dict.find?, h, ih]

theorem Dict.find?_set_ne {α : Type} (d : Dict α) (k k' : String) (v : α)
    (h : k' ≠ k) : Dict.find? (Dict.set d k v) k' = Dict.find? d k' := by
  induction d with
  | nil =>
    simp [Dict.set, Dict.find?, Ne.symm h]
  | cons e rest ih =>
    obtain ⟨a, b⟩ := e
    rw [Dict.set]
    by_cases he : a = k
    · rw [if_pos he, Dict.find?, Dict.find?, if_neg (Ne.symm h), he,
        if_neg (Ne.symm h)]
    · rw [if_neg he, Dict.find?, Dict.find?, ih]

theorem Dict.find?_isSome_iff_mem_keys {α : Type} (d : Dict α) (k : String) :
    (Dict.find? d k).isSome ↔ k ∈ Dict.keysOf d := by
  induction d with
  | nil => simp [Dict.find?, Dict.keysOf]
  | cons e rest ih =>
    by_cases h : e.1 = k
    · simp [Dict.find?, Dict.keysOf, h]
    · simp [Dict.find?, Dict.keysOf, h, ih, Ne.symm h]

theorem Dict.hasKey_iff_mem_keys {α : Type} (d : Dict α) (k : String) :
    Dict.hasKey d k = true ↔ k ∈ Dict.keysOf d := by
  rw [Dict.hasKey, Dict.find?_isSome_iff_mem_keys]

theorem Dict.find?_eq_none_iff {α : Type} (d : Dict α) (k : String) :
    Dict.find? d k = none ↔ k ∉ Dict.keysOf d := by
  rw [← Dict.find?_isSome_iff_mem_keys]
  cases Dict.find? d k <;> simp

theorem Dict.find?_eq_some_mem {α : Type} {d : Dict α} {k : String} {v : α}
    (h : Dict.find? d k = some v) : (k, v) ∈ d := by
  induction d with
  | nil => simp [Dict.find?] at h
  | cons e rest ih =>
    obtain ⟨a, b⟩ := e
    by_cases he : a = k
    · rw [Dict.find?, if_pos he] at h
      cases h
      subst he
      exact List.mem_cons_self _ _
    · rw [Dict.find?, if_neg he] at h
      exact List.mem_cons_of_mem _ (ih h)

theorem Dict.mem_find?_of_nodup {α : Type} {d : Dict α} {k : String} {v : α}
    (hd : (Dict.keysOf d).Nodup) (h : (k, v) ∈ d) : Dict.find? d k = some v := by
  induction d with
  | nil => simp at h
  | cons e rest ih =>
    rw [Dict.keysOf, List.map_cons, List.nodup_cons] at hd
    rcases List.mem_cons.mp h with h1 | h2
    · subst h1
      simp [Dict.find?]
    · have hk : e.1 ≠ k := by
        intro he
        exact hd.1 (he ▸ List.mem_map_of_mem (·.1) h2)
      rw [Dict.find?, if_neg hk]
      exact ih hd.2 h2

/-! ### Components of one loop iteration -/

theorem detectOne_history (previous_data : Snapshot) (st : DState) (e : String × Record) :
    (detectOne previous_data st e).history =
      Dict.set st.history e.1 ((Dict.find? st.history e.1).getD [] ++ [e.2]) := by
  rw [detectOne]
  cases Dict.find? previous_data e.1 with
  | none => rfl
  | some prev =>
    by_cases h : prev.price ≠ e.2.price <;> simp [h]

theorem detectOne_new (previous_data : Snapshot) (st : DState) (e : String × Record) :
    (detectOne previous_data st e).new_properties =
      st.new_properties ++
        (if Dict.find? previous_data e.1 = none then [e.2] else []) := by
  rw [detectOne]
  cases Dict.find? previous_data e.1 with
  | none => simp
  | some prev =>
    by_cases h : prev.price ≠ e.2.price <;> simp [h]

/-- The `price_changes` entry contributed by one current item, if any:
present iff the id is in `previous_data` with a different price. -/
def pcEntry (previous_data : Snapshot) (e : String × Record) : Option PriceChange :=
  match Dict.find? previous_data e.1 with
  | none => none
  | some prev =>
    if prev.price ≠ e.2.price then
      some { prop := e.2, old_price := prev.price, price_diff := e.2.price - prev.price }
    else none

theorem detectOne_pc (previous_data : Snapshot) (st : DState) (e : String × Record) :
    (detectOne previous_data st e).price_changes =
      st.price_changes ++ (pcEntry previous_data e).toList := by
  rw [detectOne, pcEntry]
  cases Dict.find? previous_data e.1 with
  | none => simp
  | some prev =>
    by_cases h : prev.price ≠ e.2.price <;> simp [h]

/-! ### Characterization of the fold over `current_data` -/

theorem foldl_detectOne_new (previous_data : Snapshot) :
    ∀ (current : Snapshot) (st : DState),
      (current.foldl (detectOne previous_data) st).new_properties =
        st.new_properties ++
          ((current.filter (fun e => ¬ Dict.hasKey previous_data e.1)).map (·.2))
  | [], st => by simp
  | e :: rest, st => by
    rw [List.foldl_cons, foldl_detectOne_new previous_data rest, detectOne_new]
    rw [List.filter_cons]
    by_cases h : Dict.find? previous_data e.1 = none
    · have : Dict.hasKey previous_data e.1 = false := by
        simp [Dict.hasKey, h]
      simp [h, this]
    · have : Dict.hasKey previous_data e.1 = true := by
        simp only [Dict.hasKey]
        cases hf : Dict.find? previous_data e.1 with
        | none => exact absurd hf h
        | some _ => rfl
      simp [h, this]

theorem foldl_detectOne_pc (previous_data : Snapshot) :
    ∀ (current : Snapshot) (st : DState),
      (current.foldl (detectOne previous_data) st).price_changes =
        st.price_changes ++ current.filterMap (pcEntry previous_data)
  | [], st => by simp
  | e :: rest, st => by
    rw [List.foldl_cons, foldl_detectOne_pc previous_data rest, detectOne_pc,
      List.filterMap_cons]
    cases pcEntry previous_data e <;> simp

theorem foldl_detectOne_history_notmem (previous_data : Snapshot) :
    ∀ (current : Snapshot) (st : DState) (k : String),
      k ∉ Dict.keysOf current →
      Dict.find? (current.foldl (detectOne previous_data) st).history k =
        Dict.find? st.history k
  | [], st, k, _ => by simp
  | e :: rest, st, k, hk => by
    rw [Dict.keysOf, List.map_cons, List.mem_cons] at hk
    push_neg at hk
    rw [List.foldl_cons,
      foldl_detectOne_history_notmem previous_data rest _ k (by
        rw [Dict.keysOf]; exact hk.2),
      detectOne_history, Dict.find?_set_ne _ _ _ _ hk.1]

theorem foldl_detectOne_history_mem (previous_data : Snapshot) :
    ∀ (current : Snapshot) (st : DState) (k : String) (r : Record),
      (Dict.keysOf current).Nodup →
      Dict.find? current k = some r →
      Dict.find? (current.foldl (detectOne previous_data) st).history k =
        some ((Dict.find? st.history k).getD [] ++ [r])
  | [], _, k, r, _, hf => by simp [Dict.find?] at hf
  | e :: rest, st, k, r, hnd, hf => by
    rw [Dict.keysOf, List.map_cons, List.nodup_cons] at hnd
    by_cases he : e.1 = k
    · subst he
      rw [Dict.find?, if_pos rfl] at hf
      cases hf
      rw [List.foldl_cons,
        foldl_detectOne_history_notmem previous_data rest _ e.1 (by
          rw [Dict.keysOf]; exact hnd.1),
        detectOne_history, Dict.find?_set_self]
    · rw [Dict.find?, if_neg he] at hf
      rw [List.foldl_cons,
        foldl_detectOne_history_mem previous_data rest _ k r hnd.2 hf,
        detectOne_history, Dict.find?_set_ne _ _ _ _ (Ne.symm he)]

/-! ### Characterization of `detectPass` -/

theorem detectPass_new (P C : Snapshot) (H : History) :
    (detectPass P C H).1.new_properties =
      (C.filter (fun e => ¬ Dict.hasKey P e.1)).map (·.2) := by
  simp only [detectPass]
  rw [foldl_detectOne_new]
  simp

theorem detectPass_pc (P C : Snapshot) (H : History) :
    (detectPass P C H).1.price_changes = C.filterMap (pcEntry P) := by
  simp only [detectPass]
  rw [foldl_detectOne_pc]
  simp

theorem detectPass_removed (P C : Snapshot) (H : History) :
    (detectPass P C H).1.removed_properties =
      (P.filter (fun e => ¬ Dict.hasKey C e.1)).map (·.2) := rfl

theorem detectPass_hist_mem (P C : Snapshot) (H : History) (k : String) (r : Record)
    (hnd : (Dict.keysOf C).Nodup) (hf : Dict.find? C k = some r) :
    Dict.find? (detectPass P C H).2 k = some ((Dict.find? H k).getD [] ++ [r]) := by
  simp only [detectPass]
  exact foldl_detectOne_history_mem P C _ k r hnd hf

theorem detectPass_hist_notmem (P C : Snapshot) (H : History) (k : String)
    (hk : k ∉ Dict.keysOf C) :
    Dict.find? (detectPass P C H).2 k = Dict.find? H k := by
  simp only [detectPass]
  exact foldl_detectOne_history_notmem P C _ k hk

theorem mem_keysOf_iff {α : Type} (d : Dict α) (k : String) :
    k ∈ Dict.keysOf d ↔ ∃ v, (k, v) ∈ d := by
  rw [Dict.keysOf, List.mem_map]
  constructor
  · rintro ⟨⟨a, b⟩, hm, rfl⟩
    exact ⟨b, hm⟩
  · rintro ⟨v, hv⟩
    exact ⟨(k, v), hv, rfl⟩

theorem pcEntry_eq_some_iff (P : Snapshot) (e : String × Record) (pc : PriceChange) :
    pcEntry P e = some pc ↔
      ∃ prev, Dict.find? P e.1 = some prev ∧ prev.price ≠ e.2.price ∧
        pc = { prop := e.2, old_price := prev.price, price_diff := e.2.price - prev.price } := by
  rw [pcEntry]
  cases h : Dict.find? P e.1 with
  | none => simp
  | some prev =>
    by_cases hp : prev.price ≠ e.2.price
    · simp only [if_pos hp]
      constructor
      · rintro h'
        cases h'
        exact ⟨prev, rfl, hp, rfl⟩
      · rintro ⟨prev', hprev', _, rfl⟩
        cases hprev'
        rfl
    · simp only [if_neg hp]
      push_neg at hp
      constructor
      · rintro ⟨⟩
      · rintro ⟨prev', hprev', hne, _⟩
        cases hprev'
        exact absurd hp hne

/-- The ids of `current` present in `previous` with an unchanged price: the
ids that fall through both branches of the classification (no alert). -/
def unchangedIds (previous current : Snapshot) : List String :=
  (current.filter
    (fun e => (Dict.find? previous e.1).map Record.price == some e.2.price)).map (·.1)

/-- Claim C1: with well-formed snapshots (unique keys, each record's `id`
field equal to its key), the detection pass classifies ids exactly as:
new = keys(C) minus keys(P); removed = keys(P) minus keys(C);
price-changed = ids in both whose prices differ; the three sets are pairwise
disjoint; and new, price-changed and the implicitly unchanged ids together
are exactly keys(C). -/
theorem claim_C1_classification (P C : Snapshot) (H : History)
    (hCne : C ≠ [])
    (hndC : (Dict.keysOf C).Nodup) (hndP : (Dict.keysOf P).Nodup)
    (hidC : ∀ e ∈ C, e.2.id = e.1) (hidP : ∀ e ∈ P, e.2.id = e.1) :
    (∀ i, i ∈ (detectPass P C H).1.new_properties.map Record.id ↔
        (i ∈ Dict.keysOf C ∧ i ∉ Dict.keysOf P)) ∧
    (∀ i, i ∈ (detectPass P C H).1.removed_properties.map Record.id ↔
        (i ∈ Dict.keysOf P ∧ i ∉ Dict.keysOf C)) ∧
    (∀ i, i ∈ (detectPass P C H).1.price_changes.map (fun pc => pc.prop.id) ↔
        (∃ rc prev, Dict.find? C i = some rc ∧ Dict.find? P i = some prev ∧
          rc.price ≠ prev.price)) ∧
    (∀ i, ¬ (i ∈ (detectPass P C H).1.new_properties.map Record.id ∧
             i ∈ (detectPass P C H).1.price_changes.map (fun pc => pc.prop.id))) ∧
    (∀ i, ¬ (i ∈ (detectPass P C H).1.new_properties.map Record.id ∧
             i ∈ (detectPass P C H).1.removed_properties.map Record.id)) ∧
    (∀ i, ¬ (i ∈ (detectPass P C H).1.price_changes.map (fun pc => pc.prop.id) ∧
             i ∈ (detectPass P C H).1.removed_properties.map Record.id)) ∧
    (∀ i, (i ∈ (detectPass P C H).1.new_properties.map Record.id ∨
           i ∈ (detectPass P C H).1.price_changes.map (fun pc => pc.prop.id) ∨
           i ∈ unchangedIds P C) ↔ i ∈ Dict.keysOf C) := by
  clear hCne
  have hnew : ∀ i, i ∈ (detectPass P C H).1.new_properties.map Record.id ↔
      (i ∈ Dict.keysOf C ∧ i ∉ Dict.keysOf P) := by
    intro i
    rw [detectPass_new, List.map_map, List.mem_map]
    constructor
    · rintro ⟨e, he, rfl⟩
      rw [List.mem_filter] at he
      have hid := hidC e he.1
      simp only [Function.comp_apply, hid]
      refine ⟨(mem_keysOf_iff C e.1).mpr ⟨e.2, by cases e; exact he.1⟩, ?_⟩
      rw [← Dict.hasKey_iff_mem_keys]
      simpa using he.2
    · rintro ⟨hC, hP⟩
      obtain ⟨v, hv⟩ := (mem_keysOf_iff C i).mp hC
      refine ⟨(i, v), ?_, ?_⟩
      · rw [List.mem_filter]
        refine ⟨hv, ?_⟩
        simp only [decide_eq_true_eq]
        rw [Dict.hasKey_iff_mem_keys]
        exact hP
      · exact hidC (i, v) hv
  have hrem : ∀ i, i ∈ (detectPass P C H).1.removed_properties.map Record.id ↔
      (i ∈ Dict.keysOf P ∧ i ∉ Dict.keysOf C) := by
    intro i
    rw [detectPass_removed, List.map_map, List.mem_map]
    constructor
    · rintro ⟨e, he, rfl⟩
      rw [List.mem_filter] at he
      have hid := hidP e he.1
      simp only [Function.comp_apply, hid]
      refine ⟨(mem_keysOf_iff P e.1).mpr ⟨e.2, by cases e; exact he.1⟩, ?_⟩
      rw [← Dict.hasKey_iff_mem_keys]
      simpa using he.2
    · rintro ⟨hP, hC⟩
      obtain ⟨v, hv⟩ := (mem_keysOf_iff P i).mp hP
      refine ⟨(i, v), ?_, ?_⟩
      · rw [List.mem_filter]
        refine ⟨hv, ?_⟩
        simp only [decide_eq_true_eq]
        rw [Dict.hasKey_iff_mem_keys]
        exact hC
      · exact hidP (i, v) hv
  have hpc : ∀ i, i ∈ (detectPass P C H).1.price_changes.map (fun pc => pc.prop.id) ↔
      (∃ rc prev, Dict.find? C i = some rc ∧ Dict.find? P i = some prev ∧
        rc.price ≠ prev.price) := by
    intro i
    rw [detectPass_pc, List.mem_map]
    constructor
    · rintro ⟨pc, hpc, rfl⟩
      rw [List.mem_filterMap] at hpc
      obtain ⟨e, he, hentry⟩ := hpc
      obtain ⟨prev, hprev, hne, rfl⟩ := (pcEntry_eq_some_iff P e pc).mp hentry
      have hid := hidC e he
      refine ⟨e.2, prev, ?_, ?_, Ne.symm hne⟩
      · simp only [hid]
        exact Dict.mem_find?_of_nodup hndC (by cases e; exact he)
      · simp only [hid]
        exact hprev
    · rintro ⟨rc, prev, hrc, hprev, hne⟩
      refine ⟨{ prop := rc, old_price := prev.price, price_diff := rc.price - prev.price },
        ?_, ?_⟩
      · rw [List.mem_filterMap]
        refine ⟨(i, rc), Dict.find?_eq_some_mem hrc, ?_⟩
        rw [pcEntry_eq_some_iff]
        exact ⟨prev, hprev, Ne.symm hne, rfl⟩
      · exact hidC (i, rc) (Dict.find?_eq_some_mem hrc)
  refine ⟨hnew, hrem, hpc, ?_, ?_, ?_, ?_⟩
  · rintro i ⟨h1, h2⟩
    obtain ⟨_, hP⟩ := (hnew i).mp h1
    obtain ⟨rc, prev, _, hprev, _⟩ := (hpc i).mp h2
    exact hP ((Dict.find?_isSome_iff_mem_keys P i).mp (by rw [hprev]; rfl))
  · rintro i ⟨h1, h2⟩
    obtain ⟨hC, _⟩ := (hnew i).mp h1
    obtain ⟨_, hC'⟩ := (hrem i).mp h2
    exact hC' hC
  · rintro i ⟨h1, h2⟩
    obtain ⟨rc, prev, hrc, _, _⟩ := (hpc i).mp h1
    obtain ⟨_, hC'⟩ := (hrem i).mp h2
    exact hC' ((Dict.find?_isSome_iff_mem_keys C i).mp (by rw [hrc]; rfl))
  · intro i
    constructor
    · rintro (h | h | h)
      · exact ((hnew i).mp h).1
      · obtain ⟨rc, prev, hrc, _, _⟩ := (hpc i).mp h
        exact (Dict.find?_isSome_iff_mem_keys C i).mp (by rw [hrc]; rfl)
      · rw [unchangedIds, List.mem_map] at h
        obtain ⟨e, he, rfl⟩ := h
        rw [List.mem_filter] at he
        exact List.mem_map_of_mem _ he.1
    · intro hC
      obtain ⟨v, hv⟩ := (mem_keysOf_iff C i).mp hC
      have hrc : Dict.find? C i = some v := Dict.mem_find?_of_nodup hndC hv
      cases hprev : Dict.find? P i with
      | none =>
        left
        rw [hnew i]
        refine ⟨hC, ?_⟩
        rw [← Dict.find?_eq_none_iff]
        exact hprev
      | some prev =>
        by_cases hpr : prev.price = v.price
        · right; right
          rw [unchangedIds, List.mem_map]
          refine ⟨(i, v), ?_, rfl⟩
          rw [List.mem_filter]
          refine ⟨hv, ?_⟩
          simp [hprev, hpr]
        · right; left
          rw [hpc i]
          exact ⟨v, prev, hrc, hprev, fun h => hpr h.symm⟩

/-- Claim C2: for a non-empty current snapshot, one detection pass appends
exactly one record to `history[id]` for every id in `current` — creating the
list when the id is absent (`getD []`) — and the appended record is
`current[id]` itself, so its price is `current[id].price`; ids outside
`current` have nothing appended. -/
theorem claim_C2_history_append (P C : Snapshot) (H : History)
    (hCne : C ≠ []) (hndC : (Dict.keysOf C).Nodup) :
    (∀ id r, Dict.find? C id = some r →
      Dict.find? (detectPass P C H).2 id =
        some ((Dict.find? H id).getD [] ++ [r]) ∧
      ((Dict.find? (detectPass P C H).2 id).getD []).map Record.price =
        ((Dict.find? H id).getD []).map Record.price ++ [r.price]) ∧
    (∀ id, Dict.find? C id = none →
      Dict.find? (detectPass P C H).2 id = Dict.find? H id) := by
  clear hCne
  constructor
  · intro id r hf
    have h := detectPass_hist_mem P C H id r hndC hf
    refine ⟨h, ?_⟩
    rw [h]
    simp
  · intro id hf
    exact detectPass_hist_notmem P C H id ((Dict.find?_eq_none_iff C id).mp hf)

/-- Claim C4: history length is monotone over one cycle: the old
`history[id]` is a prefix of the new one (no entry is removed, reordered or
truncated), its length never decreases, and increases by exactly one for
every id observed in the current snapshot. -/
theorem claim_C4_history_monotone (P C : Snapshot) (H : History)
    (hndC : (Dict.keysOf C).Nodup) :
    ∀ id,
      (∃ t, (Dict.find? H id).getD [] ++ t =
        (Dict.find? (detectPass P C H).2 id).getD []) ∧
      ((Dict.find? H id).getD []).length ≤
        ((Dict.find? (detectPass P C H).2 id).getD []).length ∧
      (id ∈ Dict.keysOf C →
        ((Dict.find? (detectPass P C H).2 id).getD []).length =
          ((Dict.find? H id).getD []).length + 1) := by
  intro id
  by_cases hid : id ∈ Dict.keysOf C
  · have hs : (Dict.find? C id).isSome := (Dict.find?_isSome_iff_mem_keys C id).mpr hid
    obtain ⟨r, hr⟩ := Option.isSome_iff_exists.mp hs
    have h := detectPass_hist_mem P C H id r hndC hr
    rw [h]
    refine ⟨⟨[r], rfl⟩, ?_, ?_⟩ <;> simp
  · have h := detectPass_hist_notmem P C H id hid
    rw [h]
    exact ⟨⟨[], by simp⟩, le_refl _, fun hmem => absurd hmem hid⟩

/-- Claim C5: an id present in both snapshots with a differing price yields
a `price_changes` entry carrying the current record (hence the new price),
the old price, and `price_diff = new_price - old_price` (so old 1000000 and
new 900000 give -100000; see the witness). -/
theorem claim_C5_price_change_delta (P C : Snapshot) (H : History) (id : String)
    (rc prev : Record)
    (hndC : (Dict.keysOf C).Nodup)
    (hC : Dict.find? C id = some rc) (hP : Dict.find? P id = some prev)
    (hne : rc.price ≠ prev.price) :
    ∃ pc ∈ (detectPass P C H).1.price_changes,
      pc.prop = rc ∧ pc.old_price = prev.price ∧
      pc.price_diff = rc.price - prev.price := by
  clear hndC
  rw [detectPass_pc]
  exact ⟨{ prop := rc, old_price := prev.price, price_diff := rc.price - prev.price },
    List.mem_filterMap.mpr ⟨(id, rc), Dict.find?_eq_some_mem hC,
      (pcEntry_eq_some_iff P (id, rc) _).mpr ⟨prev, hP, Ne.symm hne, rfl⟩⟩,
    rfl, rfl, rfl⟩

/-- Claim C9: an id absent from the previous snapshot whose key still holds
a list in the loaded history (a property that was removed and reappears)
gets its new record appended to the existing list — the pre-removal
timeline is preserved and extended, not reset. -/
theorem claim_C9_reappearing_id (P C : Snapshot) (H : History) (id : String)
    (l : List Record) (r : Record)
    (hndC : (Dict.keysOf C).Nodup)
    (hP : Dict.find? P id = none)
    (hH : Dict.find? H id = some l)
    (hC : Dict.find? C id = some r) :
    Dict.find? (detectPass P C H).2 id = some (l ++ [r]) := by
  clear hP
  have h := detectPass_hist_mem P C H id r hndC hC
  rw [hH] at h
  exact h

/-! ### Concrete example data (used by the witnesses) -/

/-- Record for id "A" as first observed (price 1 000 000 Kč). -/
def exRecA : Record :=
  { id := "A", name := "Dům A", price := 1000000, locality := "Praha-západ"
    url := "https://example.org/a", area := AreaVal.num 250
    image_url := some "https://example.org/a.jpg"
    description := "Prostorný dům se zahradou"
    last_updated := "2026-01-01T06:00:00" }

/-- Record for id "A" one cycle later: price dropped to 900 000 Kč. -/
def exRecA2 : Record :=
  { exRecA with price := 900000, last_updated := "2026-01-02T06:00:00" }

/-- Record for id "B" (present before, gone now: removed). -/
def exRecB : Record :=
  { id := "B", name := "Dům B", price := 500000, locality := "Beroun"
    url := "https://example.org/b", area := AreaVal.txt "N/A"
    image_url := none, description := "Menší dům"
    last_updated := "2026-01-01T06:00:00" }

/-- Record for id "N" (new in the current snapshot). -/
def exRecN : Record :=
  { id := "N", name := "Dům N", price := 7500000, locality := "Kladno"
    url := "https://example.org/n", area := AreaVal.num 320
    image_url := some "https://example.org/n.jpg"
    description := "Novostavba", last_updated := "2026-01-02T06:00:00" }

/-- Previous snapshot: A (1 000 000) and B (500 000). -/
def exP : Snapshot := [("A", exRecA), ("B", exRecB)]

/-- Current snapshot: A at 900 000 (price change), N (new); B gone (removed). -/
def exC : Snapshot := [("A", exRecA2), ("N", exRecN)]

/-- History so far: one entry each for A and B. -/
def exH : History := [("A", [exRecA]), ("B", [exRecB])]

/-- Witness for C1 at the concrete scenario `exP`/`exC`/`exH`. -/
theorem claim_C1_classification_witness :
    (exC ≠ [] ∧ (Dict.keysOf exC).Nodup ∧ (Dict.keysOf exP).Nodup ∧
     (∀ e ∈ exC, e.2.id = e.1) ∧ (∀ e ∈ exP, e.2.id = e.1)) ∧
    ((∀ i, i ∈ (detectPass exP exC exH).1.new_properties.map Record.id ↔
        (i ∈ Dict.keysOf exC ∧ i ∉ Dict.keysOf exP)) ∧
    (∀ i, i ∈ (detectPass exP exC exH).1.removed_properties.map Record.id ↔
        (i ∈ Dict.keysOf exP ∧ i ∉ Dict.keysOf exC)) ∧
    (∀ i, i ∈ (detectPass exP exC exH).1.price_changes.map (fun pc => pc.prop.id) ↔
        (∃ rc prev, Dict.find? exC i = some rc ∧ Dict.find? exP i = some prev ∧
          rc.price ≠ prev.price)) ∧
    (∀ i, ¬ (i ∈ (detectPass exP exC exH).1.new_properties.map Record.id ∧
             i ∈ (detectPass exP exC exH).1.price_changes.map (fun pc => pc.prop.id))) ∧
    (∀ i, ¬ (i ∈ (detectPass exP exC exH).1.new_properties.map Record.id ∧
             i ∈ (detectPass exP exC exH).1.removed_properties.map Record.id)) ∧
    (∀ i, ¬ (i ∈ (detectPass exP exC exH).1.price_changes.map (fun pc => pc.prop.id) ∧
             i ∈ (detectPass exP exC exH).1.removed_properties.map Record.id)) ∧
    (∀ i, (i ∈ (detectPass exP exC exH).1.new_properties.map Record.id ∨
           i ∈ (detectPass exP exC exH).1.price_changes.map (fun pc => pc.prop.id) ∨
           i ∈ unchangedIds exP exC) ↔ i ∈ Dict.keysOf exC)) :=
  ⟨⟨by decide, by decide, by decide, by decide, by decide⟩,
   claim_C1_classification exP exC exH (by decide) (by decide) (by decide)
     (by decide) (by decide)⟩

/-- Witness for C2 at the concrete scenario. -/
theorem claim_C2_history_append_witness :
    (exC ≠ [] ∧ (Dict.keysOf exC).Nodup) ∧
    ((∀ id r, Dict.find? exC id = some r →
      Dict.find? (detectPass exP exC exH).2 id =
        some ((Dict.find? exH id).getD [] ++ [r]) ∧
      ((Dict.find? (detectPass exP exC exH).2 id).getD []).map Record.price =
        ((Dict.find? exH id).getD []).map Record.price ++ [r.price]) ∧
    (∀ id, Dict.find? exC id = none →
      Dict.find? (detectPass exP exC exH).2 id = Dict.find? exH id)) :=
  ⟨⟨by decide, by decide⟩,
   claim_C2_history_append exP exC exH (by decide) (by decide)⟩

/-- Witness for C4 at the concrete scenario. -/
theorem claim_C4_history_monotone_witness :
    (Dict.keysOf exC).Nodup ∧
    (∀ id,
      (∃ t, (Dict.find? exH id).getD [] ++ t =
        (Dict.find? (detectPass exP exC exH).2 id).getD []) ∧
      ((Dict.find? exH id).getD []).length ≤
        ((Dict.find? (detectPass exP exC exH).2 id).getD []).length ∧
      (id ∈ Dict.keysOf exC →
        ((Dict.find? (detectPass exP exC exH).2 id).getD []).length =
          ((Dict.find? exH id).getD []).length + 1)) :=
  ⟨by decide, claim_C4_history_monotone exP exC exH (by decide)⟩

/-- Witness for C5: old price 1 000 000, new price 900 000, delta -100 000. -/
theorem claim_C5_price_change_delta_witness :
    ((Dict.keysOf exC).Nodup ∧ Dict.find? exC "A" = some exRecA2 ∧
     Dict.find? exP "A" = some exRecA ∧ exRecA2.price ≠ exRecA.price) ∧
    (∃ pc ∈ (detectPass exP exC exH).1.price_changes,
      pc.prop = exRecA2 ∧ pc.old_price = exRecA.price ∧
      pc.price_diff = exRecA2.price - exRecA.price) ∧
    exRecA.price = 1000000 ∧ exRecA2.price = 900000 ∧
    exRecA2.price - exRecA.price = -100000 :=
  ⟨⟨by decide, by decide, by decide, by decide⟩,
   claim_C5_price_change_delta exP exC exH "A" exRecA2 exRecA
     (by decide) (by decide) (by decide) (by decide),
   by decide, by decide, by decide⟩

/-- History where "B" still has its old timeline although "B" is absent
from the previous snapshot (it was removed in an earlier cycle). -/
def exPnoB : Snapshot := [("A", exRecA)]

/-- Current snapshot where "B" reappears. -/
def exCwithB : Snapshot := [("A", exRecA2), ("B", exRecB)]

/-- Witness for C9: "B" reappears and its old history list is extended. -/
theorem claim_C9_reappearing_id_witness :
    ((Dict.keysOf exCwithB).Nodup ∧ Dict.find? exPnoB "B" = none ∧
     Dict.find? exH "B" = some [exRecB] ∧ Dict.find? exCwithB "B" = some exRecB) ∧
    Dict.find? (detectPass exPnoB exCwithB exH).2 "B" = some ([exRecB] ++ [exRecB]) :=
  ⟨⟨by decide, by decide, by decide, by decide⟩,
   claim_C9_reappearing_id exPnoB exCwithB exH "B" [exRecB] exRecB
     (by decide) (by decide) (by decide) (by decide)⟩

/-! ### JSON values

The values `json.dump` receives from this program are dicts, lists, strings,
ints and `None` (plus booleans, which the grammar allows); floats do not
occur (prices are ints, every other field is a string or `None`), so numbers
are modelled as exact integers. Objects and arrays are mutual inductives so
that structural recursion and induction stay simple. -/

mutual
inductive Json : Type
  | null : Json
  | bool (b : Bool) : Json
  | int (n : Int) : Json
  | str (s : String) : Json
  | arr (elems : JsonArr) : Json
  | obj (members : JsonObj) : Json

inductive JsonArr : Type
  | nil : JsonArr
  | cons (hd : Json) (tl : JsonArr) : JsonArr

inductive JsonObj : Type
  | nil : JsonObj
  | cons (key : String) (val : Json) (tl : JsonObj) : JsonObj
end

/-- JSON whitespace, as in Python's `json` module: space, tab, LF, CR. -/
def isWsChar (c : Char) : Bool := c == ' ' || c == '\t' || c == '\n' || c == '\x0d'

/-- Drop leading JSON whitespace. -/
def skipWs : List Char → List Char
  | [] => []
  | c :: cs => if isWsChar c then skipWs cs else c :: cs

/-- Lower-case hex digit for `n < 16` (as Python's `'\\u%04x'`). -/
def hexChar (n : Nat) : Char :=
  if n < 10 then Char.ofNat (48 + n) else Char.ofNat (97 + (n - 10))

/-- Hex digit value of a character, if it is one. -/
def hexDigit? (c : Char) : Option Nat :=
  if '0' ≤ c && c ≤ '9' then some (c.toNat - 48)
  else if 'a' ≤ c && c ≤ 'f' then some (c.toNat - 87)
  else if 'A' ≤ c && c ≤ 'F' then some (c.toNat - 55)
  else none

/-- One character as `json.dump(..., ensure_ascii=False)` writes it
(`ESCAPE_DCT`): backslash, quote and the named control characters get
two-character escapes, remaining control characters get `\u00xx`, and
everything else — including non-ASCII — is written literally. -/
def escapeOne (c : Char) : List Char :=
  if c = '\\' then ['\\', '\\']
  else if c = '"' then ['\\', '"']
  else if c = '\x08' then ['\\', 'b']
  else if c = '\x0c' then ['\\', 'f']
  else if c = '\n' then ['\\', 'n']
  else if c = '\x0d' then ['\\', 'r']
  else if c = '\t' then ['\\', 't']
  else if c.toNat < 32 then
    ['\\', 'u', '0', '0', hexChar (c.toNat / 16), hexChar (c.toNat % 16)]
  else [c]

/-- Escape every character of a string body. -/
def escapeAll : List Char → List Char
  | [] => []
  | c :: cs => escapeOne c ++ escapeAll cs

/-- A JSON string literal: quote, escaped body, quote. -/
def quoteStr (s : String) : List Char := '"' :: (escapeAll s.data ++ ['"'])

/-- Decimal digits of `n`, most significant first. The `fuel` argument (one
more than `n` suffices, since `n / 10 < n`) keeps the recursion structural. -/
def natDigAux : Nat → Nat → List Char
  | 0, _ => []
  | fuel + 1, n =>
    if n < 10 then [Char.ofNat (48 + n)]
    else natDigAux fuel (n / 10) ++ [Char.ofNat (48 + n % 10)]

/-- Decimal digits of a natural number. -/
def natDig (n : Nat) : List Char := natDigAux (n + 1) n

/-- `str(i)` for a Python int: optional minus sign, then decimal digits. -/
def intDig (i : Int) : List Char :=
  if i < 0 then '-' :: natDig i.natAbs else natDig i.toNat

/-- The newline-plus-indent that `indent=2` puts before each element and
before a closing bracket (`n` spaces). -/
def nlIndent (n : Nat) : List Char := '\n' :: List.replicate n ' '

mutual
/-- Serialize a value exactly as `json.dump(v, f, ensure_ascii=False,
indent=2)` renders it, `ind` being the current indentation width (the
top-level call uses 0, children indent by 2 more). Empty containers render
as `[]` / `{}` with no newline, as in Python. -/
def dumpVal : Json → Nat → List Char
  | .null, _ => ['n', 'u', 'l', 'l']
  | .bool true, _ => ['t', 'r', 'u', 'e']
  | .bool false, _ => ['f', 'a', 'l', 's', 'e']
  | .int n, _ => intDig n
  | .str s, _ => quoteStr s
  | .arr .nil, _ => ['[', ']']
  | .arr (.cons x tl), ind =>
    '[' :: (nlIndent (ind + 2) ++ dumpVal x (ind + 2) ++ dumpArrTail tl (ind + 2)
      ++ nlIndent ind ++ [']'])
  | .obj .nil, _ => ['\x7b', '\x7d']
  | .obj (.cons k v tl), ind =>
    '\x7b' :: (nlIndent (ind + 2) ++ quoteStr k ++ ':' :: ' ' :: dumpVal v (ind + 2)
      ++ dumpObjTail tl (ind + 2) ++ nlIndent ind ++ ['\x7d'])

/-- The remaining elements of a non-empty array: `,` then newline+indent
then the element, repeatedly. -/
def dumpArrTail : JsonArr → Nat → List Char
  | .nil, _ => []
  | .cons x tl, ind =>
    ',' :: (nlIndent ind ++ dumpVal x ind ++ dumpArrTail tl ind)

/-- The remaining members of a non-empty object: `,` then newline+indent
then `"key": value`, repeatedly. -/
def dumpObjTail : JsonObj → Nat → List Char
  | .nil, _ => []
  | .cons k v tl, ind =>
    ',' :: (nlIndent ind ++ quoteStr k ++ ':' :: ' ' :: dumpVal v ind
      ++ dumpObjTail tl ind)
end

/-- `json.dump(v, f, ensure_ascii=False, indent=2)`: the file's content. -/
def dumps (v : Json) : String := String.mk (dumpVal v 0)

/-- Read a JSON string body (after the opening quote) up to the closing
quote, undoing the escapes `json.load` understands. `\uXXXX` escapes for
surrogate code units do not occur in output produced by this program (only
control characters are escaped), so they are rejected rather than paired. -/
def readStr : List Char → List Char → Option (String × List Char)
  | '"' :: rest, acc => some (String.mk acc.reverse, rest)
  | '\\' :: 'u' :: h1 :: h2 :: h3 :: h4 :: rest, acc =>
    match hexDigit? h1, hexDigit? h2, hexDigit? h3, hexDigit? h4 with
    | some a, some b, some c, some d =>
      let n := ((a * 16 + b) * 16 + c) * 16 + d
      if n < 55296 then readStr rest (Char.ofNat n :: acc) else none
    | _, _, _, _ => none
  | '\\' :: e :: rest, acc =>
    if e = '"' then readStr rest ('"' :: acc)
    else if e = '\\' then readStr rest ('\\' :: acc)
    else if e = '/' then readStr rest ('/' :: acc)
    else if e = 'b' then readStr rest ('\x08' :: acc)
    else if e = 'f' then readStr rest ('\x0c' :: acc)
    else if e = 'n' then readStr rest ('\n' :: acc)
    else if e = 'r' then readStr rest ('\x0d' :: acc)
    else if e = 't' then readStr rest ('\t' :: acc)
    else none
  | c :: rest, acc => readStr rest (c :: acc)
  | [], _ => none

/-- Numeric value of a digit run. -/
def digitsVal (ds : List Char) : Nat :=
  ds.foldl (fun a c => a * 10 + (c.toNat - 48)) 0

/-- Read a run of decimal digits (at least one). -/
def readNatDigits (cs : List Char) : Option (Nat × List Char) :=
  let ds := cs.takeWhile Char.isDigit
  if ds.isEmpty then none
  else some (digitsVal ds, cs.dropWhile Char.isDigit)

/-- Read an integer numeral: optional minus sign, then digits. (The files
this program writes contain only integer numerals, so fraction/exponent
parts are not modelled.) -/
def readInt : List Char → Option (Int × List Char)
  | [] => none
  | c :: r =>
    if c = '-' then
      match readNatDigits r with
      | some (n, r2) => some (-(n : Int), r2)
      | none => none
    else
      match readNatDigits (c :: r) with
      | some (n, r2) => some ((n : Int), r2)
      | none => none

mutual
/-- Parse one JSON value, skipping leading whitespace, as `json.load` does.
Structural on `fuel`; `parseDoc` below supplies enough fuel for any input. -/
def parseVal : Nat → List Char → Option (Json × List Char)
  | 0, _ => none
  | fuel + 1, cs =>
    match skipWs cs with
    | 'n' :: 'u' :: 'l' :: 'l' :: r => some (.null, r)
    | 't' :: 'r' :: 'u' :: 'e' :: r => some (.bool true, r)
    | 'f' :: 'a' :: 'l' :: 's' :: 'e' :: r => some (.bool false, r)
    | '"' :: r =>
      match readStr r [] with
      | some (s, r1) => some (.str s, r1)
      | none => none
    | '[' :: r =>
      match skipWs r with
      | [] => none
      | c :: r1 =>
        if c = ']' then some (.arr .nil, r1)
        else
          match parseVal fuel (c :: r1) with
          | some (x, r2) =>
            match parseArrTail fuel r2 with
            | some (tl, r3) => some (.arr (.cons x tl), r3)
            | none => none
          | none => none
    | '\x7b' :: r =>
      match skipWs r with
      | [] => none
      | c1 :: r1 =>
        if c1 = '\x7d' then some (.obj .nil, r1)
        else if c1 = '"' then
          match readStr r1 [] with
          | some (k, r2) =>
            match skipWs r2 with
            | ':' :: r3 =>
              match parseVal fuel r3 with
              | some (v, r4) =>
                match parseObjTail fuel r4 with
                | some (tl, r5) => some (.obj (.cons k v tl), r5)
                | none => none
              | none => none
            | _ => none
          | none => none
        else none
    | c :: r =>
      if c = '-' || c.isDigit then
        match readInt (c :: r) with
        | some (n, r1) => some (.int n, r1)
        | none => none
      else none
    | [] => none

/-- Parse the rest of a non-empty array: `,` then a value, repeatedly,
until `]`. -/
def parseArrTail : Nat → List Char → Option (JsonArr × List Char)
  | 0, _ => none
  | fuel + 1, cs =>
    match skipWs cs with
    | [] => none
    | c :: r =>
      if c = ']' then some (.nil, r)
      else if c = ',' then
        match parseVal fuel r with
        | some (x, r1) =>
          match parseArrTail fuel r1 with
          | some (tl, r2) => some (.cons x tl, r2)
          | none => none
        | none => none
      else none

/-- Parse the rest of a non-empty object: `,` then `"key": value`,
repeatedly, until the closing brace. -/
def parseObjTail : Nat → List Char → Option (JsonObj × List Char)
  | 0, _ => none
  | fuel + 1, cs =>
    match skipWs cs with
    | [] => none
    | c :: r =>
      if c = '\x7d' then some (.nil, r)
      else if c = ',' then
        match skipWs r with
        | '"' :: r1 =>
          match readStr r1 [] with
          | some (k, r2) =>
            match skipWs r2 with
            | ':' :: r3 =>
              match parseVal fuel r3 with
              | some (v, r4) =>
                match parseObjTail fuel r4 with
                | some (tl, r5) => some (.cons k v tl, r5)
                | none => none
              | none => none
            | _ => none
          | none => none
        | _ => none
      else none
end

/-- `json.load`: parse a whole document, requiring only whitespace after
the value. -/
def parseDoc (s : String) : Option Json :=
  match parseVal (s.data.length + 1) s.data with
  | some (v, r) => if (skipWs r).isEmpty then some v else none
  | none => none

/-! ### Whitespace lemmas -/

theorem skipWs_cons_nonws (c : Char) (l : List Char) (h : isWsChar c = false) :
    skipWs (c :: l) = c :: l := by
  rw [skipWs, if_neg (by simp [h])]

theorem skipWs_append_ws (ws l : List Char) (h : ∀ c ∈ ws, isWsChar c = true) :
    skipWs (ws ++ l) = skipWs l := by
  induction ws with
  | nil => rfl
  | cons c rest ih =>
    rw [List.cons_append, skipWs, if_pos (h c (List.mem_cons_self c rest))]
    exact ih (fun c' hc' => h c' (List.mem_cons_of_mem c hc'))

theorem nlIndent_ws (n : Nat) : ∀ c ∈ nlIndent n, isWsChar c = true := by
  intro c hc
  rw [nlIndent] at hc
  rcases List.mem_cons.mp hc with rfl | h
  · rfl
  · rw [List.eq_of_mem_replicate h]
    rfl

theorem skipWs_nlIndent (n : Nat) (l : List Char) :
    skipWs (nlIndent n ++ l) = skipWs l :=
  skipWs_append_ws _ _ (nlIndent_ws n)

/-- The remainder after a serialized value may not begin with a digit
(otherwise the number parser would keep consuming). -/
def noDig : List Char → Bool
  | [] => true
  | c :: _ => ! c.isDigit

/-! ### Digit lemmas -/

theorem digitChar_spec : ∀ d : Nat, d < 10 →
    (Char.ofNat (48 + d)).isDigit = true ∧ (Char.ofNat (48 + d)).toNat = 48 + d := by
  decide

theorem natDigAux_spec :
    ∀ (fuel n : Nat), n < fuel →
      natDigAux fuel n ≠ [] ∧ (∀ c ∈ natDigAux fuel n, c.isDigit = true) ∧
        digitsVal (natDigAux fuel n) = n := by
  intro fuel
  induction fuel with
  | zero => intro n h; omega
  | succ f ih =>
    intro n h
    by_cases h10 : n < 10
    · rw [natDigAux, if_pos h10]
      obtain ⟨hdig, htn⟩ := digitChar_spec n h10
      refine ⟨by simp, ?_, ?_⟩
      · intro c hc
        rw [List.mem_singleton] at hc
        rw [hc]
        exact hdig
      · rw [digitsVal, List.foldl_cons, List.foldl_nil, htn]
        omega
    · rw [natDigAux, if_neg h10]
      have hlt : n / 10 < f := by omega
      obtain ⟨hne, hdigs, hval⟩ := ih (n / 10) hlt
      obtain ⟨hdig, htn⟩ := digitChar_spec (n % 10) (Nat.mod_lt _ (by omega))
      refine ⟨by simp, ?_, ?_⟩
      · intro c hc
        rcases List.mem_append.mp hc with h1 | h2
        · exact hdigs c h1
        · rw [List.mem_singleton] at h2
          rw [h2]
          exact hdig
      · rw [digitsVal, List.foldl_append, List.foldl_cons, List.foldl_nil]
        rw [digitsVal] at hval
        rw [hval, htn]
        omega

theorem natDig_ne_nil (n : Nat) : natDig n ≠ [] :=
  (natDigAux_spec (n + 1) n (by omega)).1

theorem natDig_digits (n : Nat) : ∀ c ∈ natDig n, c.isDigit = true :=
  (natDigAux_spec (n + 1) n (by omega)).2.1

theorem digitsVal_natDig (n : Nat) : digitsVal (natDig n) = n :=
  (natDigAux_spec (n + 1) n (by omega)).2.2

theorem takeWhile_digit_run (ds rest : List Char)
    (hds : ∀ c ∈ ds, c.isDigit = true) (hrest : noDig rest = true) :
    (ds ++ rest).takeWhile Char.isDigit = ds ∧
      (ds ++ rest).dropWhile Char.isDigit = rest := by
  induction ds with
  | nil =>
    cases rest with
    | nil => exact ⟨rfl, rfl⟩
    | cons c t =>
      rw [noDig] at hrest
      simp only [Bool.not_eq_true'] at hrest
      simp [List.takeWhile_cons, List.dropWhile_cons, hrest]
  | cons c t ih =>
    have hc : c.isDigit = true := hds c (List.mem_cons_self c t)
    obtain ⟨h1, h2⟩ := ih (fun c' hc' => hds c' (List.mem_cons_of_mem c hc'))
    rw [List.cons_append]
    constructor
    · rw [List.takeWhile_cons, if_pos (by simp [hc]), h1]
    · rw [List.dropWhile_cons, if_pos (by simp [hc]), h2]

theorem readNatDigits_natDig (n : Nat) (rest : List Char) (h : noDig rest = true) :
    readNatDigits (natDig n ++ rest) = some (n, rest) := by
  obtain ⟨h1, h2⟩ := takeWhile_digit_run (natDig n) rest (natDig_digits n) h
  rw [readNatDigits, h1, h2, if_neg (by simp [natDig_ne_nil n]), digitsVal_natDig]

theorem digit_head_facts {c : Char} (h : c.isDigit = true) :
    isWsChar c = false ∧ c ≠ '-' ∧ c ≠ 'n' ∧ c ≠ 't' ∧ c ≠ 'f' ∧ c ≠ '"' ∧
      c ≠ '[' ∧ c ≠ '\x7b' ∧ c ≠ ']' ∧ c ≠ '\x7d' ∧ c ≠ ',' ∧ c ≠ ':' := by
  refine ⟨?_, ?_, ?_, ?_, ?_, ?_, ?_, ?_, ?_, ?_, ?_, ?_⟩
  · by_contra hws
    rw [Bool.not_eq_false, isWsChar] at hws
    simp only [Bool.or_eq_true, beq_iff_eq] at hws
    rcases hws with ((rfl | rfl) | rfl) | rfl <;> exact absurd h (by decide)
  all_goals intro hc; rw [hc] at h; exact absurd h (by decide)

theorem readInt_intDig (i : Int) (rest : List Char) (h : noDig rest = true) :
    readInt (intDig i ++ rest) = some (i, rest) := by
  by_cases hi : i < 0
  · rw [intDig, if_pos hi, List.cons_append, readInt, if_pos rfl,
      readNatDigits_natDig i.natAbs rest h]
    have hval : -((i.natAbs : Nat) : Int) = i := by omega
    simp only []
    rw [hval]
  · rw [intDig, if_neg hi]
    obtain ⟨c, t, hct⟩ : ∃ c t, natDig i.toNat = c :: t := by
      cases hnd : natDig i.toNat with
      | nil => exact absurd hnd (natDig_ne_nil _)
      | cons c t => exact ⟨c, t, rfl⟩
    have hdig : c.isDigit = true :=
      natDig_digits i.toNat c (hct ▸ List.mem_cons_self c t)
    have hnm : c ≠ '-' := (digit_head_facts hdig).2.1
    rw [hct, List.cons_append, readInt, if_neg hnm, ← List.cons_append, ← hct,
      readNatDigits_natDig i.toNat rest h]
    have hval : ((i.toNat : Nat) : Int) = i := by omega
    simp [hval]

/-! ### String escaping round trip -/

theorem hexDigit?_hexChar : ∀ d : Nat, d < 16 → hexDigit? (hexChar d) = some d := by
  decide

theorem readStr_escapeOne (c : Char) (acc rest : List Char) :
    readStr (escapeOne c ++ rest) acc = readStr rest (c :: acc) := by
  rw [escapeOne]
  by_cases h1 : c = '\\'
  · subst h1; simp [readStr]
  · rw [if_neg h1]
    by_cases h2 : c = '"'
    · subst h2; simp [readStr]
    · rw [if_neg h2]
      by_cases h3 : c = '\x08'
      · subst h3; simp [readStr]
      · rw [if_neg h3]
        by_cases h4 : c = '\x0c'
        · subst h4; simp [readStr]
        · rw [if_neg h4]
          by_cases h5 : c = '\n'
          · subst h5; simp [readStr]
          · rw [if_neg h5]
            by_cases h6 : c = '\x0d'
            · subst h6; simp [readStr]
            · rw [if_neg h6]
              by_cases h7 : c = '\t'
              · subst h7; simp [readStr]
              · rw [if_neg h7]
                by_cases h8 : c.toNat < 32
                · rw [if_pos h8]
                  have hhi : c.toNat / 16 < 16 := by omega
                  have hlo : c.toNat % 16 < 16 := by omega
                  simp only [List.cons_append, List.nil_append, readStr,
                    hexDigit?_hexChar _ hhi, hexDigit?_hexChar _ hlo,
                    show hexDigit? '0' = some 0 from by decide]
                  have hn : ((0 * 16 + 0) * 16 + c.toNat / 16) * 16 + c.toNat % 16
                      = c.toNat := by omega
                  rw [hn, if_pos (by omega), Char.ofNat_toNat]
                  simp
                · rw [if_neg h8]
                  rw [List.cons_append, List.nil_append, readStr.eq_def]
                  simp [h1, h2]

theorem readStr_escapeAll (cs : List Char) :
    ∀ (acc rest : List Char),
      readStr (escapeAll cs ++ '"' :: rest) acc =
        some (String.mk (acc.reverse ++ cs), rest) := by
  induction cs with
  | nil =>
    intro acc rest
    simp [escapeAll, readStr]
  | cons c t ih =>
    intro acc rest
    rw [escapeAll, List.append_assoc, readStr_escapeOne, ih]
    simp

theorem readStr_quoteStr (s : String) (rest : List Char) :
    readStr (escapeAll s.data ++ '"' :: rest) [] = some (s, rest) := by
  rw [readStr_escapeAll]
  rfl

theorem dumpVal_head (v : Json) (ind : Nat) :
    ∃ c t, dumpVal v ind = c :: t ∧ isWsChar c = false ∧ c ≠ ']' ∧
      c ≠ '\x7d' ∧ c ≠ ',' ∧ c ≠ ':' := by
  cases v with
  | null => exact ⟨'n', _, rfl, by decide, by decide, by decide, by decide, by decide⟩
  | bool b =>
    cases b with
    | true => exact ⟨'t', _, rfl, by decide, by decide, by decide, by decide, by decide⟩
    | false => exact ⟨'f', _, rfl, by decide, by decide, by decide, by decide, by decide⟩
  | str s => exact ⟨'"', _, rfl, by decide, by decide, by decide, by decide, by decide⟩
  | int n =>
    by_cases hn : n < 0
    · refine ⟨'-', natDig n.natAbs, ?_, by decide, by decide, by decide, by decide,
        by decide⟩
      rw [dumpVal, intDig, if_pos hn]
    · obtain ⟨c, t, hct⟩ : ∃ c t, natDig n.toNat = c :: t := by
        cases hnd : natDig n.toNat with
        | nil => exact absurd hnd (natDig_ne_nil _)
        | cons c t => exact ⟨c, t, rfl⟩
      have hdig : c.isDigit = true :=
        natDig_digits n.toNat c (hct ▸ List.mem_cons_self c t)
      obtain ⟨hws, _, _, _, _, _, _, _, h9, h10, h11, h12⟩ := digit_head_facts hdig
      refine ⟨c, t, ?_, hws, h9, h10, h11, h12⟩
      rw [dumpVal, intDig, if_neg hn, hct]
  | arr a =>
    cases a with
    | nil => exact ⟨'[', _, rfl, by decide, by decide, by decide, by decide, by decide⟩
    | cons x tl =>
      exact ⟨'[', _, rfl, by decide, by decide, by decide, by decide, by decide⟩
  | obj o =>
    cases o with
    | nil => exact ⟨'\x7b', _, rfl, by decide, by decide, by decide, by decide, by decide⟩
    | cons k val tl =>
      exact ⟨'\x7b', _, rfl, by decide, by decide, by decide, by decide, by decide⟩

/-- The serialized tail of an array, followed by the closing indent and
bracket, never starts with a digit. -/
theorem noDig_arrTail (tl : JsonArr) (ind ind2 : Nat) (rest : List Char) :
    noDig (dumpArrTail tl ind ++ (nlIndent ind2 ++ ']' :: rest)) = true := by
  cases tl with
  | nil => rw [dumpArrTail]; rfl
  | cons x t => rw [dumpArrTail]; rfl

/-- Likewise for the tail of an object. -/
theorem noDig_objTail (tl : JsonObj) (ind ind2 : Nat) (rest : List Char) :
    noDig (dumpObjTail tl ind ++ (nlIndent ind2 ++ '\x7d' :: rest)) = true := by
  cases tl with
  | nil => rw [dumpObjTail]; rfl
  | cons k v t => rw [dumpObjTail]; rfl

theorem parseVal_ws_append (fuel : Nat) (ws l : List Char)
    (h : ∀ c ∈ ws, isWsChar c = true) :
    parseVal fuel (ws ++ l) = parseVal fuel l := by
  cases fuel with
  | zero => rfl
  | succ f =>
    rw [parseVal, parseVal, skipWs_append_ws ws l h]

theorem parseArrTail_ws_append (fuel : Nat) (ws l : List Char)
    (h : ∀ c ∈ ws, isWsChar c = true) :
    parseArrTail fuel (ws ++ l) = parseArrTail fuel l := by
  cases fuel with
  | zero => rfl
  | succ f =>
    rw [parseArrTail, parseArrTail, skipWs_append_ws ws l h]

theorem parseObjTail_ws_append (fuel : Nat) (ws l : List Char)
    (h : ∀ c ∈ ws, isWsChar c = true) :
    parseObjTail fuel (ws ++ l) = parseObjTail fuel l := by
  cases fuel with
  | zero => rfl
  | succ f =>
    rw [parseObjTail, parseObjTail, skipWs_append_ws ws l h]

/-! ### One-step unfoldings of the parser -/

theorem parseVal_step_arr (f : Nat) (r : List Char) :
    parseVal (f + 1) ('[' :: r) =
      (match skipWs r with
      | [] => none
      | c :: r1 =>
        if c = ']' then some (.arr .nil, r1)
        else
          match parseVal f (c :: r1) with
          | some (x, r2) =>
            match parseArrTail f r2 with
            | some (tl, r3) => some (.arr (.cons x tl), r3)
            | none => none
          | none => none) := by
  rw [parseVal, skipWs_cons_nonws _ _ (by decide)]
  rfl

theorem parseVal_step_obj (f : Nat) (r : List Char) :
    parseVal (f + 1) ('\x7b' :: r) =
      (match skipWs r with
      | [] => none
      | c1 :: r1 =>
        if c1 = '\x7d' then some (.obj .nil, r1)
        else if c1 = '"' then
          match readStr r1 [] with
          | some (k, r2) =>
            match skipWs r2 with
            | ':' :: r3 =>
              match parseVal f r3 with
              | some (v, r4) =>
                match parseObjTail f r4 with
                | some (tl, r5) => some (.obj (.cons k v tl), r5)
                | none => none
              | none => none
            | _ => none
          | none => none
        else none) := by
  rw [parseVal, skipWs_cons_nonws _ _ (by decide)]
  rfl

theorem parseVal_step_num (f : Nat) (c0 : Char) (t : List Char)
    (hws : isWsChar c0 = false) (h1 : c0 ≠ 'n') (h2 : c0 ≠ 't') (h3 : c0 ≠ 'f')
    (h4 : c0 ≠ '"') (h5 : c0 ≠ '[') (h6 : c0 ≠ '\x7b')
    (h7 : (c0 == '-' || c0.isDigit) = true) :
    parseVal (f + 1) (c0 :: t) =
      (match readInt (c0 :: t) with
      | some (n, r1) => some (.int n, r1)
      | none => none) := by
  rw [parseVal, skipWs_cons_nonws _ _ hws]
  simp [h1, h2, h3, h4, h5, h6, h7]
  intro ha hb
  simp [ha, hb] at h7

theorem parseVal_step_str (f : Nat) (r : List Char) :
    parseVal (f + 1) ('"' :: r) =
      (match readStr r [] with
       | some (s, r1) => some (.str s, r1)
       | none => none) := by
  rw [parseVal, skipWs_cons_nonws _ _ (by decide)]
  rfl

theorem intDig_head (i : Int) :
    ∃ c t, intDig i = c :: t ∧ (c == '-' || c.isDigit) = true ∧ isWsChar c = false ∧
      c ≠ 'n' ∧ c ≠ 't' ∧ c ≠ 'f' ∧ c ≠ '"' ∧ c ≠ '[' ∧ c ≠ '\x7b' := by
  by_cases hi : i < 0
  · refine ⟨'-', natDig i.natAbs, ?_, by decide, by decide, by decide, by decide,
      by decide, by decide, by decide, by decide⟩
    rw [intDig, if_pos hi]
  · obtain ⟨c, t, hct⟩ : ∃ c t, natDig i.toNat = c :: t := by
      cases hnd : natDig i.toNat with
      | nil => exact absurd hnd (natDig_ne_nil _)
      | cons c t => exact ⟨c, t, rfl⟩
    have hdig : c.isDigit = true :=
      natDig_digits i.toNat c (hct ▸ List.mem_cons_self c t)
    obtain ⟨hws, _, hn, ht, hf', hq, hbr, hbrace, _, _, _, _⟩ := digit_head_facts hdig
    refine ⟨c, t, ?_, by simp [hdig], hws, hn, ht, hf', hq, hbr, hbrace⟩
    rw [intDig, if_neg hi, hct]

/-! ### The serializer / parser round trip -/

mutual
theorem rt_val : ∀ (v : Json) (ind fuel : Nat) (rest : List Char),
    (dumpVal v ind).length < fuel → noDig rest = true →
    parseVal fuel (dumpVal v ind ++ rest) = some (v, rest)
  | .null, ind, fuel, rest, hfl, _ => by
    cases fuel with
    | zero => exact absurd hfl (Nat.not_lt_zero _)
    | succ f => simp [dumpVal, parseVal, skipWs, isWsChar]
  | .bool true, ind, fuel, rest, hfl, _ => by
    cases fuel with
    | zero => exact absurd hfl (Nat.not_lt_zero _)
    | succ f => simp [dumpVal, parseVal, skipWs, isWsChar]
  | .bool false, ind, fuel, rest, hfl, _ => by
    cases fuel with
    | zero => exact absurd hfl (Nat.not_lt_zero _)
    | succ f => simp [dumpVal, parseVal, skipWs, isWsChar]
  | .int n, ind, fuel, rest, hfl, hr => by
    cases fuel with
    | zero => exact absurd hfl (Nat.not_lt_zero _)
    | succ f =>
      obtain ⟨c0, t0, hct, hnum, hws, h1, h2, h3, h4, h5, h6⟩ := intDig_head n
      have harg : dumpVal (.int n) ind ++ rest = c0 :: (t0 ++ rest) := by
        rw [dumpVal, hct, List.cons_append]
      rw [harg, parseVal_step_num f c0 _ hws h1 h2 h3 h4 h5 h6 hnum,
        ← List.cons_append, ← hct, readInt_intDig n rest hr]
  | .str s, ind, fuel, rest, hfl, _ => by
    cases fuel with
    | zero => exact absurd hfl (Nat.not_lt_zero _)
    | succ f =>
      have harg : dumpVal (.str s) ind ++ rest =
          '"' :: (escapeAll s.data ++ '"' :: rest) := by
        rw [dumpVal, quoteStr]
        simp
      rw [harg, parseVal_step_str, readStr_quoteStr]
  | .arr .nil, ind, fuel, rest, hfl, _ => by
    cases fuel with
    | zero => exact absurd hfl (Nat.not_lt_zero _)
    | succ f =>
      have harg : dumpVal (.arr .nil) ind ++ rest = '[' :: ']' :: rest := by
        rw [dumpVal]
        rfl
      rw [harg, parseVal_step_arr, skipWs_cons_nonws _ _ (by decide)]
      simp
  | .arr (.cons x tl), ind, fuel, rest, hfl, hr => by
    cases fuel with
    | zero => exact absurd hfl (Nat.not_lt_zero _)
    | succ f =>
      obtain ⟨c0, t0, hx, hxws, hxbr, _, _, _⟩ := dumpVal_head x (ind + 2)
      have hlen : (dumpVal x (ind + 2)).length < f ∧
          (dumpArrTail tl (ind + 2)).length < f := by
        rw [dumpVal] at hfl
        simp only [List.length_cons, List.length_append, nlIndent,
          List.length_replicate] at hfl
        omega
      have harg : dumpVal (.arr (.cons x tl)) ind ++ rest =
          '[' :: (nlIndent (ind + 2) ++ (dumpVal x (ind + 2) ++
            (dumpArrTail tl (ind + 2) ++ (nlIndent ind ++ ']' :: rest)))) := by
        rw [dumpVal]
        simp [List.append_assoc]
      rw [harg, parseVal_step_arr]
      have hsk : skipWs (nlIndent (ind + 2) ++ (dumpVal x (ind + 2) ++
          (dumpArrTail tl (ind + 2) ++ (nlIndent ind ++ ']' :: rest)))) =
          c0 :: (t0 ++ (dumpArrTail tl (ind + 2) ++ (nlIndent ind ++ ']' :: rest))) := by
        rw [skipWs_nlIndent, hx, List.cons_append, skipWs_cons_nonws _ _ hxws]
      rw [hsk]
      simp only [if_neg hxbr]
      have hv : parseVal f (c0 :: (t0 ++ (dumpArrTail tl (ind + 2) ++
          (nlIndent ind ++ ']' :: rest)))) =
          some (x, dumpArrTail tl (ind + 2) ++ (nlIndent ind ++ ']' :: rest)) := by
        rw [← List.cons_append, ← hx]
        exact rt_val x (ind + 2) f _ hlen.1 (noDig_arrTail tl (ind + 2) ind rest)
      have htl : parseArrTail f (dumpArrTail tl (ind + 2) ++
          (nlIndent ind ++ ']' :: rest)) = some (tl, rest) :=
        rt_arrTail tl (ind + 2) ind f rest hlen.2 hr
      simp only [hv, htl]
  | .obj .nil, ind, fuel, rest, hfl, _ => by
    cases fuel with
    | zero => exact absurd hfl (Nat.not_lt_zero _)
    | succ f =>
      have harg : dumpVal (.obj .nil) ind ++ rest = '\x7b' :: '\x7d' :: rest := by
        rw [dumpVal]
        rfl
      rw [harg, parseVal_step_obj, skipWs_cons_nonws _ _ (by decide)]
      simp
  | .obj (.cons k v tl), ind, fuel, rest, hfl, hr => by
    cases fuel with
    | zero => exact absurd hfl (Nat.not_lt_zero _)
    | succ f =>
      have hlen : (dumpVal v (ind + 2)).length < f ∧
          (dumpObjTail tl (ind + 2)).length < f := by
        rw [dumpVal] at hfl
        simp only [List.length_cons, List.length_append, nlIndent, quoteStr,
          List.length_replicate] at hfl
        omega
      have harg : dumpVal (.obj (.cons k v tl)) ind ++ rest =
          '\x7b' :: (nlIndent (ind + 2) ++ ('"' :: (escapeAll k.data ++
            ('"' :: ':' :: ' ' :: (dumpVal v (ind + 2) ++
              (dumpObjTail tl (ind + 2) ++ (nlIndent ind ++ '\x7d' :: rest))))))) := by
        rw [dumpVal, quoteStr]
        simp [List.append_assoc]
      rw [harg, parseVal_step_obj]
      have hsk : skipWs (nlIndent (ind + 2) ++ ('"' :: (escapeAll k.data ++
          ('"' :: ':' :: ' ' :: (dumpVal v (ind + 2) ++
            (dumpObjTail tl (ind + 2) ++ (nlIndent ind ++ '\x7d' :: rest))))))) =
          '"' :: (escapeAll k.data ++
            ('"' :: ':' :: ' ' :: (dumpVal v (ind + 2) ++
              (dumpObjTail tl (ind + 2) ++ (nlIndent ind ++ '\x7d' :: rest))))) := by
        rw [skipWs_nlIndent, skipWs_cons_nonws _ _ (by decide)]
      rw [hsk]
      have hk : readStr (escapeAll k.data ++
          ('"' :: ':' :: ' ' :: (dumpVal v (ind + 2) ++
            (dumpObjTail tl (ind + 2) ++ (nlIndent ind ++ '\x7d' :: rest))))) [] =
          some (k, ':' :: ' ' :: (dumpVal v (ind + 2) ++
            (dumpObjTail tl (ind + 2) ++ (nlIndent ind ++ '\x7d' :: rest)))) :=
        readStr_quoteStr k _
      have hcol : skipWs (':' :: ' ' :: (dumpVal v (ind + 2) ++
          (dumpObjTail tl (ind + 2) ++ (nlIndent ind ++ '\x7d' :: rest)))) =
          ':' :: ' ' :: (dumpVal v (ind + 2) ++
            (dumpObjTail tl (ind + 2) ++ (nlIndent ind ++ '\x7d' :: rest))) :=
        skipWs_cons_nonws _ _ (by decide)
      have hv : parseVal f (' ' :: (dumpVal v (ind + 2) ++
          (dumpObjTail tl (ind + 2) ++ (nlIndent ind ++ '\x7d' :: rest)))) =
          some (v, dumpObjTail tl (ind + 2) ++ (nlIndent ind ++ '\x7d' :: rest)) := by
        rw [← List.singleton_append, parseVal_ws_append f _ _ (by decide)]
        exact rt_val v (ind + 2) f _ hlen.1 (noDig_objTail tl (ind + 2) ind rest)
      have htl : parseObjTail f (dumpObjTail tl (ind + 2) ++
          (nlIndent ind ++ '\x7d' :: rest)) = some (tl, rest) :=
        rt_objTail tl (ind + 2) ind f rest hlen.2 hr
      simp only [if_neg (by decide : ¬('"' = '\x7d')), eq_self_iff_true, if_true,
        hk, hcol, hv, htl]
termination_by v _ _ _ _ _ => sizeOf v

theorem rt_arrTail : ∀ (tl : JsonArr) (ind ind2 fuel : Nat) (rest : List Char),
    (dumpArrTail tl ind).length < fuel → noDig rest = true →
    parseArrTail fuel (dumpArrTail tl ind ++ (nlIndent ind2 ++ ']' :: rest)) =
      some (tl, rest)
  | .nil, ind, ind2, fuel, rest, hfl, _ => by
    cases fuel with
    | zero => exact absurd hfl (Nat.not_lt_zero _)
    | succ f =>
      rw [dumpArrTail, List.nil_append, parseArrTail, skipWs_nlIndent,
        skipWs_cons_nonws _ _ (by decide)]
      simp
  | .cons x tl2, ind, ind2, fuel, rest, hfl, hr => by
    cases fuel with
    | zero => exact absurd hfl (Nat.not_lt_zero _)
    | succ f =>
      have hlen : (dumpVal x ind).length < f ∧ (dumpArrTail tl2 ind).length < f := by
        rw [dumpArrTail] at hfl
        simp only [List.length_cons, List.length_append, nlIndent,
          List.length_replicate] at hfl
        omega
      have harg : dumpArrTail (.cons x tl2) ind ++ (nlIndent ind2 ++ ']' :: rest) =
          ',' :: (nlIndent ind ++ (dumpVal x ind ++
            (dumpArrTail tl2 ind ++ (nlIndent ind2 ++ ']' :: rest)))) := by
        rw [dumpArrTail]
        simp [List.append_assoc]
      rw [harg, parseArrTail, skipWs_cons_nonws _ _ (by decide)]
      have hv : parseVal f (nlIndent ind ++ (dumpVal x ind ++
          (dumpArrTail tl2 ind ++ (nlIndent ind2 ++ ']' :: rest)))) =
          some (x, dumpArrTail tl2 ind ++ (nlIndent ind2 ++ ']' :: rest)) := by
        rw [parseVal_ws_append f _ _ (nlIndent_ws ind)]
        exact rt_val x ind f _ hlen.1 (noDig_arrTail tl2 ind ind2 rest)
      have htl : parseArrTail f (dumpArrTail tl2 ind ++
          (nlIndent ind2 ++ ']' :: rest)) = some (tl2, rest) :=
        rt_arrTail tl2 ind ind2 f rest hlen.2 hr
      simp only [if_neg (by decide : ¬(',' = ']')), eq_self_iff_true, if_true,
        hv, htl]
termination_by tl _ _ _ _ _ _ => sizeOf tl

theorem rt_objTail : ∀ (tl : JsonObj) (ind ind2 fuel : Nat) (rest : List Char),
    (dumpObjTail tl ind).length < fuel → noDig rest = true →
    parseObjTail fuel (dumpObjTail tl ind ++ (nlIndent ind2 ++ '\x7d' :: rest)) =
      some (tl, rest)
  | .nil, ind, ind2, fuel, rest, hfl, _ => by
    cases fuel with
    | zero => exact absurd hfl (Nat.not_lt_zero _)
    | succ f =>
      rw [dumpObjTail, List.nil_append, parseObjTail, skipWs_nlIndent,
        skipWs_cons_nonws _ _ (by decide)]
      simp
  | .cons k v tl2, ind, ind2, fuel, rest, hfl, hr => by
    cases fuel with
    | zero => exact absurd hfl (Nat.not_lt_zero _)
    | succ f =>
      have hlen : (dumpVal v ind).length < f ∧ (dumpObjTail tl2 ind).length < f := by
        rw [dumpObjTail] at hfl
        simp only [List.length_cons, List.length_append, nlIndent, quoteStr,
          List.length_replicate] at hfl
        omega
      have harg : dumpObjTail (.cons k v tl2) ind ++ (nlIndent ind2 ++ '\x7d' :: rest) =
          ',' :: (nlIndent ind ++ ('"' :: (escapeAll k.data ++
            ('"' :: ':' :: ' ' :: (dumpVal v ind ++
              (dumpObjTail tl2 ind ++ (nlIndent ind2 ++ '\x7d' :: rest))))))) := by
        rw [dumpObjTail, quoteStr]
        simp [List.append_assoc]
      rw [harg, parseObjTail, skipWs_cons_nonws _ _ (by decide)]
      have hsk : skipWs (nlIndent ind ++ ('"' :: (escapeAll k.data ++
          ('"' :: ':' :: ' ' :: (dumpVal v ind ++
            (dumpObjTail tl2 ind ++ (nlIndent ind2 ++ '\x7d' :: rest))))))) =
          '"' :: (escapeAll k.data ++
            ('"' :: ':' :: ' ' :: (dumpVal v ind ++
              (dumpObjTail tl2 ind ++ (nlIndent ind2 ++ '\x7d' :: rest))))) := by
        rw [skipWs_nlIndent, skipWs_cons_nonws _ _ (by decide)]
      have hk : readStr (escapeAll k.data ++
          ('"' :: ':' :: ' ' :: (dumpVal v ind ++
            (dumpObjTail tl2 ind ++ (nlIndent ind2 ++ '\x7d' :: rest))))) [] =
          some (k, ':' :: ' ' :: (dumpVal v ind ++
            (dumpObjTail tl2 ind ++ (nlIndent ind2 ++ '\x7d' :: rest)))) :=
        readStr_quoteStr k _
      have hcol : skipWs (':' :: ' ' :: (dumpVal v ind ++
          (dumpObjTail tl2 ind ++ (nlIndent ind2 ++ '\x7d' :: rest)))) =
          ':' :: ' ' :: (dumpVal v ind ++
            (dumpObjTail tl2 ind ++ (nlIndent ind2 ++ '\x7d' :: rest))) :=
        skipWs_cons_nonws _ _ (by decide)
      have hv : parseVal f (' ' :: (dumpVal v ind ++
          (dumpObjTail tl2 ind ++ (nlIndent ind2 ++ '\x7d' :: rest)))) =
          some (v, dumpObjTail tl2 ind ++ (nlIndent ind2 ++ '\x7d' :: rest)) := by
        rw [← List.singleton_append, parseVal_ws_append f _ _ (by decide)]
        exact rt_val v ind f _ hlen.1 (noDig_objTail tl2 ind ind2 rest)
      have htl : parseObjTail f (dumpObjTail tl2 ind ++
          (nlIndent ind2 ++ '\x7d' :: rest)) = some (tl2, rest) :=
        rt_objTail tl2 ind ind2 f rest hlen.2 hr
      simp only [if_neg (by decide : ¬(',' = '\x7d')), eq_self_iff_true, if_true,
        hsk, hk, hcol, hv, htl]
termination_by tl _ _ _ _ _ _ => sizeOf tl
end

/-- Parsing a dumped document recovers the value: the `json.dump` /
`json.load` round trip at the level of JSON values. -/
theorem parseDoc_dumps (v : Json) : parseDoc (dumps v) = some v := by
  rw [parseDoc, dumps]
  have hdata : (String.mk (dumpVal v 0)).data = dumpVal v 0 := rfl
  rw [hdata]
  have h := rt_val v 0 ((dumpVal v 0).length + 1) [] (by omega) rfl
  rw [List.append_nil] at h
  rw [h]
  rfl

/-! ### Snapshots and history as JSON values

`fetch_properties` builds each record dict with the fields in this order;
`save_data` / `save_history` hand the dicts to `json.dump`, and after
`json.load` the program reads fields by key (`prop['price']`, ...). -/

/-- The `area` field as a JSON value (number or the string `'N/A'`). -/
def areaToJson : AreaVal → Json
  | .num n => .int n
  | .txt s => .str s

/-- The `image_url` field: `None` serializes as `null`. -/
def imageToJson : Option String → Json
  | none => .null
  | some s => .str s

/-- A record as the JSON object `json.dump` receives. -/
def recordToJson (r : Record) : Json :=
  .obj (.cons "id" (.str r.id) (.cons "name" (.str r.name)
    (.cons "price" (.int r.price) (.cons "locality" (.str r.locality)
    (.cons "url" (.str r.url) (.cons "area" (areaToJson r.area)
    (.cons "image_url" (imageToJson r.image_url)
    (.cons "description" (.str r.description)
    (.cons "last_updated" (.str r.last_updated) .nil)))))))))

/-- Key lookup in a parsed JSON object (duplicate keys never occur in files
this program writes; first match). -/
def lookupObj : JsonObj → String → Option Json
  | .nil, _ => none
  | .cons k v tl, key => if k = key then some v else lookupObj tl key

/-- A string field (`prop['name']`, ...). -/
def getStr (o : JsonObj) (k : String) : Option String :=
  match lookupObj o k with
  | some (.str s) => some s
  | _ => none

/-- An integer field (`prop['price']`). -/
def getInt (o : JsonObj) (k : String) : Option Int :=
  match lookupObj o k with
  | some (.int n) => some n
  | _ => none

/-- The `area` field (number or string). -/
def getArea (o : JsonObj) (k : String) : Option AreaVal :=
  match lookupObj o k with
  | some (.int n) => some (.num n)
  | some (.str s) => some (.txt s)
  | _ => none

/-- The `image_url` field (`null` or a string). -/
def getOptStr (o : JsonObj) (k : String) : Option (Option String) :=
  match lookupObj o k with
  | some .null => some none
  | some (.str s) => some (some s)
  | _ => none

/-- A record back out of a JSON object, reading each field by key. -/
def recordOfJson : Json → Option Record
  | .obj o => do
    let id ← getStr o "id"
    let name ← getStr o "name"
    let price ← getInt o "price"
    let locality ← getStr o "locality"
    let url ← getStr o "url"
    let area ← getArea o "area"
    let image_url ← getOptStr o "image_url"
    let description ← getStr o "description"
    let last_updated ← getStr o "last_updated"
    some { id := id, name := name, price := price, locality := locality,
           url := url, area := area, image_url := image_url,
           description := description, last_updated := last_updated }
  | _ => none

theorem recordOfJson_recordToJson (r : Record) :
    recordOfJson (recordToJson r) = some r := by
  obtain ⟨id, name, price, locality, url, area, image_url, description, lu⟩ := r
  cases area <;> cases image_url <;> rfl

/-- The members of the snapshot object, one per property, in dict order. -/
def snapMembers : Snapshot → JsonObj
  | [] => .nil
  | (k, r) :: tl => .cons k (recordToJson r) (snapMembers tl)

/-- The current snapshot as the JSON value `save_data` writes. -/
def snapToJson (m : Snapshot) : Json := .obj (snapMembers m)

/-- A history list as a JSON array. -/
def recListToJson : List Record → JsonArr
  | [] => .nil
  | r :: tl => .cons (recordToJson r) (recListToJson tl)

/-- The members of the history object. -/
def histMembers : History → JsonObj
  | [] => .nil
  | (k, l) :: tl => .cons k (.arr (recListToJson l)) (histMembers tl)

/-- The history as the JSON value `save_history` writes. -/
def histToJson (h : History) : Json := .obj (histMembers h)

/-- Rebuild the snapshot dict as `json.load` does: insert the members left
to right (`d[key] = value`). -/
def snapOfMembers : JsonObj → Snapshot → Option Snapshot
  | .nil, d => some d
  | .cons k v tl, d =>
    match recordOfJson v with
    | some r => snapOfMembers tl (Dict.set d k r)
    | none => none

/-- The loaded snapshot, if the document is object-shaped. -/
def snapOfJson : Json → Option Snapshot
  | .obj o => snapOfMembers o []
  | _ => none

/-- A history list back out of a JSON array. -/
def recListOfJson : JsonArr → Option (List Record)
  | .nil => some []
  | .cons v tl =>
    match recordOfJson v, recListOfJson tl with
    | some r, some l => some (r :: l)
    | _, _ => none

/-- Rebuild the history dict member by member. -/
def histOfMembers : JsonObj → History → Option History
  | .nil, d => some d
  | .cons k v tl, d =>
    match v with
    | .arr a =>
      match recListOfJson a with
      | some l => histOfMembers tl (Dict.set d k l)
      | none => none
    | _ => none

/-- The loaded history, if the document is object-of-arrays-shaped. -/
def histOfJson : Json → Option History
  | .obj o => histOfMembers o []
  | _ => none

theorem Dict.set_eq_append {α : Type} (d : Dict α) (k : String) (v : α)
    (h : k ∉ Dict.keysOf d) : Dict.set d k v = d ++ [(k, v)] := by
  induction d with
  | nil => rfl
  | cons e rest ih =>
    rw [Dict.keysOf, List.map_cons, List.mem_cons] at h
    push_neg at h
    obtain ⟨a, b⟩ := e
    rw [Dict.set, if_neg (fun he => h.1 he.symm), List.cons_append,
      ih (by rw [Dict.keysOf]; exact h.2)]

theorem snapOfMembers_snapMembers :
    ∀ (m : Snapshot) (d : Snapshot),
      (Dict.keysOf m).Nodup → (∀ k ∈ Dict.keysOf m, k ∉ Dict.keysOf d) →
      snapOfMembers (snapMembers m) d = some (d ++ m)
  | [], d, _, _ => by simp [snapMembers, snapOfMembers]
  | (k, r) :: tl, d, hnd, hdisj => by
    rw [Dict.keysOf, List.map_cons, List.nodup_cons] at hnd
    rw [snapMembers, snapOfMembers, recordOfJson_recordToJson]
    have hk : k ∉ Dict.keysOf d :=
      hdisj k (by rw [Dict.keysOf, List.map_cons]; exact List.mem_cons_self _ _)
    show snapOfMembers (snapMembers tl) (Dict.set d k r) = some (d ++ (k, r) :: tl)
    rw [Dict.set_eq_append d k r hk,
      snapOfMembers_snapMembers tl (d ++ [(k, r)]) hnd.2 ?_]
    · rw [List.append_assoc]
      rfl
    · intro k' hk'
      rw [Dict.keysOf, List.map_append]
      rw [List.mem_append]
      push_neg
      constructor
      · exact hdisj k' (by rw [Dict.keysOf, List.map_cons]; exact List.mem_cons_of_mem _ hk')
      · intro hmem
        simp only [List.map_cons, List.map_nil, List.mem_singleton] at hmem
        exact hnd.1 (hmem ▸ hk')

theorem snapOfJson_snapToJson (m : Snapshot) (hnd : (Dict.keysOf m).Nodup) :
    snapOfJson (snapToJson m) = some m := by
  rw [snapToJson, snapOfJson, snapOfMembers_snapMembers m [] hnd (by simp [Dict.keysOf])]
  rfl

theorem recListOfJson_recListToJson (l : List Record) :
    recListOfJson (recListToJson l) = some l := by
  induction l with
  | nil => rfl
  | cons r tl ih =>
    rw [recListToJson, recListOfJson, recordOfJson_recordToJson, ih]

theorem histOfMembers_histMembers :
    ∀ (m : History) (d : History),
      (Dict.keysOf m).Nodup → (∀ k ∈ Dict.keysOf m, k ∉ Dict.keysOf d) →
      histOfMembers (histMembers m) d = some (d ++ m)
  | [], d, _, _ => by simp [histMembers, histOfMembers]
  | (k, l) :: tl, d, hnd, hdisj => by
    rw [Dict.keysOf, List.map_cons, List.nodup_cons] at hnd
    rw [histMembers, histOfMembers, recListOfJson_recListToJson]
    have hk : k ∉ Dict.keysOf d :=
      hdisj k (by rw [Dict.keysOf, List.map_cons]; exact List.mem_cons_self _ _)
    show histOfMembers (histMembers tl) (Dict.set d k l) = some (d ++ (k, l) :: tl)
    rw [Dict.set_eq_append d k l hk,
      histOfMembers_histMembers tl (d ++ [(k, l)]) hnd.2 ?_]
    · rw [List.append_assoc]
      rfl
    · intro k' hk'
      rw [Dict.keysOf, List.map_append]
      rw [List.mem_append]
      push_neg
      constructor
      · exact hdisj k' (by rw [Dict.keysOf, List.map_cons]; exact List.mem_cons_of_mem _ hk')
      · intro hmem
        simp only [List.map_cons, List.map_nil, List.mem_singleton] at hmem
        exact hnd.1 (hmem ▸ hk')

theorem histOfJson_histToJson (m : History) (hnd : (Dict.keysOf m).Nodup) :
    histOfJson (histToJson m) = some m := by
  rw [histToJson, histOfJson,
    histOfMembers_histMembers m [] hnd (by simp [Dict.keysOf])]
  rfl

/-! ### Persistence: `load_previous_data`, `load_history`, `save_data`,
`save_history`, and `check_and_notify` at the file level -/

/-- Result of loading a file: a value, or a raised exception (propagating
out of `check_and_notify` into `run_continuous`'s handler). -/
inductive LoadResult (α : Type) : Type
  | ok (value : α) : LoadResult α
  | raise : LoadResult α
deriving DecidableEq, Repr

/-- The exact text `save_data(data)` writes. -/
def save_data_str (data : Snapshot) : String := dumps (snapToJson data)

/-- The exact text `save_history(history)` writes. -/
def save_history_str (h : History) : String := dumps (histToJson h)

/-- `load_previous_data`: a missing file (`FileNotFoundError`) yields `{}`;
otherwise the content must be JSON (else `json.load` raises) shaped as a
snapshot (ill-shaped content would raise later, at field access — both
abort the cycle with the files untouched, so they are modelled together
as `raise`). -/
def load_previous_data (file : Option String) : LoadResult Snapshot :=
  match file with
  | none => .ok []
  | some s =>
    match parseDoc s with
    | some j =>
      match snapOfJson j with
      | some m => .ok m
      | none => .raise
    | none => .raise

/-- `load_history`, with the same conventions. -/
def load_history (file : Option String) : LoadResult History :=
  match file with
  | none => .ok []
  | some s =>
    match parseDoc s with
    | some j =>
      match histOfJson j with
      | some m => .ok m
      | none => .raise
    | none => .raise

/-- The two JSON files `check_and_notify` persists (`sreality_data.json`
and `sreality_history.json`); `none` is an absent file. The HTML report
files are render output for external collaborators and are not modelled. -/
structure FileState : Type where
  dataFile : Option String
  histFile : Option String
deriving DecidableEq, Repr

/-- One cycle of `check_and_notify` over the persisted state, with the
fetched `current_data` as a parameter (the Fetcher is an external
collaborator):

```
previous_data = self.load_previous_data()
history = self.load_history()
current_data = self.fetch_properties()
if not current_data:
    print("No data fetched")
    return
... detection pass ...
self.save_data(current_data)
self.save_history(history)
```

A load that raises aborts the cycle before anything is written (the
exception is caught in `run_continuous`), as does the empty-fetch guard;
in both cases the files are returned unchanged and no diff is produced. -/
def check_and_notify (st : FileState) (current_data : Snapshot) :
    FileState × Option Diff :=
  match load_previous_data st.dataFile, load_history st.histFile with
  | .ok previous_data, .ok history =>
    if current_data.isEmpty then (st, none)
    else
      let r := detectPass previous_data current_data history
      ({ dataFile := some (save_data_str current_data)
         histFile := some (save_history_str r.2) }, some r.1)
  | _, _ => (st, none)

/-- Claim C3: when the fetched current snapshot is empty, the cycle aborts
before any mutation: both persisted files are byte-for-byte unchanged
(nothing appended, nothing saved), and no diff is produced — the call
signals failure (`none`) instead. -/
theorem claim_C3_empty_guard (st : FileState) :
    check_and_notify st [] = (st, none) := by
  cases h1 : load_previous_data st.dataFile with
  | ok p =>
    cases h2 : load_history st.histFile with
    | ok h => simp [check_and_notify, h1, h2]
    | raise => simp [check_and_notify, h1, h2]
  | raise =>
    cases h2 : load_history st.histFile with
    | ok h => simp [check_and_notify, h1, h2]
    | raise => simp [check_and_notify, h1, h2]

/-- Claim C7: loading the snapshot file or the history file when the file
is absent returns an empty mapping instead of raising, so a first-ever run
starts from `previous = {}` and `history = {}`. -/
theorem claim_C7_absent_file_empty :
    load_previous_data none = .ok [] ∧ load_history none = .ok [] :=
  ⟨rfl, rfl⟩

/-- Claim C8: saving a snapshot or a history and loading it back yields a
structure equal to the original — non-ASCII characters in string fields and
exact integer prices included (see the witness for a concrete check). -/
theorem claim_C8_roundtrip (data : Snapshot) (h : History)
    (hnd1 : (Dict.keysOf data).Nodup) (hnd2 : (Dict.keysOf h).Nodup) :
    load_previous_data (some (save_data_str data)) = .ok data ∧
    load_history (some (save_history_str h)) = .ok h := by
  constructor
  · rw [load_previous_data, save_data_str, parseDoc_dumps]
    show (match snapOfJson (snapToJson data) with
      | some m => LoadResult.ok m
      | none => LoadResult.raise) = LoadResult.ok data
    rw [snapOfJson_snapToJson data hnd1]
  · rw [load_history, save_history_str, parseDoc_dumps]
    show (match histOfJson (histToJson h) with
      | some m => LoadResult.ok m
      | none => LoadResult.raise) = LoadResult.ok h
    rw [histOfJson_histToJson h hnd2]

/-- A snapshot exercising non-ASCII text, escapes and exact prices: used by
the C8 witness. -/
def exEsc : Record :=
  { id := "E", name := "Vila — Průhonice", price := 21623887, locality := "Průhonice"
    url := "https://example.org/e", area := AreaVal.num 512
    image_url := none
    description := "Řádek 1\nŘádek 2\t\"citát\" \\konec"
    last_updated := "2026-01-02T06:00:00" }

/-- Snapshot for the C8 witness. -/
def exS8 : Snapshot := [("A", exRecA), ("E", exEsc)]

/-- History for the C8 witness. -/
def exH8 : History := [("A", [exRecA, exRecA2]), ("E", [exEsc])]

/-- Witness for C8 at a concrete snapshot and history with diacritics,
escaped characters and seven-digit prices. -/
theorem claim_C8_roundtrip_witness :
    ((Dict.keysOf exS8).Nodup ∧ (Dict.keysOf exH8).Nodup) ∧
    (load_previous_data (some (save_data_str exS8)) = .ok exS8 ∧
     load_history (some (save_history_str exH8)) = .ok exH8) :=
  ⟨⟨by decide, by decide⟩, claim_C8_roundtrip exS8 exH8 (by decide) (by decide)⟩

/-! ### C6: how `save_data` / `save_history` touch the file system

```
def save_history(self, history):
    with open(self.history_file, 'w', encoding='utf-8') as f:
        json.dump(history, f, ensure_ascii=False, indent=2)
```

`open(path, 'w')` truncates the target file in place at once; `json.dump`
then streams the serialized text into the same path; `close` ends the
`with` block. No temporary file and no rename are involved. A crash or
write error after `k` of these operations leaves the file in the state
`runWOps old (ops.take k)`. -/

/-- One file operation of a save call. -/
inductive WOp : Type
  | openTrunc : WOp
  | writeChunk (s : String) : WOp
  | close : WOp
deriving DecidableEq, Repr

/-- Effect of one operation on the file's content (`none` = absent). -/
def applyWOp (file : Option String) : WOp → Option String
  | .openTrunc => some ""
  | .writeChunk s => some ((file.getD "") ++ s)
  | .close => file

/-- Effect of a sequence of operations. -/
def runWOps (file : Option String) (ops : List WOp) : Option String :=
  ops.foldl applyWOp file

/-- The operations `save_history(history)` performs on
`sreality_history.json`. -/
def save_history_ops (h : History) : List WOp :=
  [.openTrunc, .writeChunk (save_history_str h), .close]

/-- Counterexample to C6 as stated: with `"old"` persisted, a failure right
after `open(..., 'w')` (one operation executed, nothing written yet) leaves
the file empty — neither the previous content nor a complete new one. The
code writes in place; it does not use write-then-rename. -/
theorem claim_C6_counterexample :
    runWOps (some "old") ((save_history_ops []).take 1) = some "" ∧
    some "" ≠ (some "old" : Option String) ∧
    some "" ≠ some (save_history_str []) := by
  refine ⟨rfl, by decide, by decide⟩

/-- C6 amended: a save interrupted after `k ≥ 1` of its operations leaves
the target file holding a prefix of the new serialization (possibly empty);
the previously persisted content is already gone when `open(..., 'w')`
truncates, because there is no write-then-rename. -/
theorem claim_C6_amended_truncate_in_place (old : Option String) (h : History)
    (k : Nat) (hk : 0 < k) :
    ∃ s, runWOps old ((save_history_ops h).take k) = some s ∧
      ∃ t, s ++ t = save_history_str h := by
  match k, hk with
  | 1, _ => exact ⟨"", rfl, save_history_str h, String.empty_append _⟩
  | 2, _ =>
    refine ⟨save_history_str h, ?_, "", String.append_empty _⟩
    show some ("" ++ save_history_str h) = _
    rw [String.empty_append]
  | n + 3, _ =>
    refine ⟨save_history_str h, ?_, "", String.append_empty _⟩
    rw [List.take_of_length_le (by simp [save_history_ops])]
    show some ("" ++ save_history_str h) = some (save_history_str h)
    rw [String.empty_append]

/-- Witness for the amended C6, at `k = 1` with concrete content. -/
theorem claim_C6_amended_truncate_in_place_witness :
    0 < 1 ∧
    (∃ s, runWOps (some "old") ((save_history_ops exH).take 1) = some s ∧
      ∃ t, s ++ t = save_history_str exH) :=
  ⟨by decide, claim_C6_amended_truncate_in_place (some "old") exH 1 (by decide)⟩

/-! ### C10: `prop.copy()` allocates a fresh top-level object

Value-level equality cannot distinguish `history[prop_id].append(prop)`
from `history[prop_id].append(prop.copy())`, so the copy on line 781-782 of
`check_and_notify` is modelled on a small heap: records live at addresses,
a snapshot maps ids to addresses, and `dict.copy()` allocates a fresh
address holding the same top-level field map. -/

/-- Scalar field values of a record dict at runtime. -/
inductive PVal : Type
  | str (s : String) : PVal
  | int (n : Int) : PVal
  | null : PVal
deriving DecidableEq, Repr

/-- The heap: a bump allocator; every live address is below `next`. -/
structure Heap : Type where
  next : Nat
  mem : Nat → Option (Dict PVal)

/-- Allocate a fresh object. -/
def Heap.alloc (h : Heap) (o : Dict PVal) : Nat × Heap :=
  (h.next,
   { next := h.next + 1
     mem := fun a => if a = h.next then some o else h.mem a })

/-- Mutate one top-level field of the object at `a` (`prop['price'] = v`). -/
def Heap.setField (h : Heap) (a : Nat) (f : String) (v : PVal) : Heap :=
  { h with
    mem := fun x =>
      if x = a then (h.mem x).map (fun o => Dict.set o f v) else h.mem x }

/-- `history[prop_id].append(prop.copy())` at the heap level: read the dict
at `propAddr`, allocate a fresh object carrying the same top-level fields
(`dict.copy()` is shallow), and append the fresh address to the id's
history list. -/
def copyAppend (h : Heap) (l : List Nat) (propAddr : Nat) : Heap × List Nat :=
  match h.mem propAddr with
  | some o =>
    let r := h.alloc o
    (r.2, l ++ [r.1])
  | none => (h, l)

/-- Claim C10: the record appended to the history is a top-level copy, not
the same object: the appended address is fresh (distinct from the current
record's address), initially holds equal fields, and mutating a top-level
field of either object afterwards leaves the other unchanged. -/
theorem claim_C10_copy_not_aliased (h : Heap) (a : Nat) (o : Dict PVal)
    (l : List Nat) (ha : h.mem a = some o) (hlt : a < h.next) :
    ∃ b, (copyAppend h l a).2 = l ++ [b] ∧ b ≠ a ∧
      (copyAppend h l a).1.mem b = some o ∧
      (copyAppend h l a).1.mem a = some o ∧
      (∀ f v, ((copyAppend h l a).1.setField a f v).mem b = some o) ∧
      (∀ f v, ((copyAppend h l a).1.setField b f v).mem a = some o) := by
  have hc : copyAppend h l a =
      ({ next := h.next + 1
         mem := fun x => if x = h.next then some o else h.mem x }, l ++ [h.next]) := by
    rw [copyAppend, ha]
    rfl
  have hba : h.next ≠ a := by omega
  refine ⟨h.next, by rw [hc], hba, ?_, ?_, ?_, ?_⟩
  · rw [hc]
    simp
  · rw [hc]
    simp only []
    rw [if_neg (by omega : ¬ a = h.next)]
    exact ha
  · intro f v
    rw [hc]
    simp only [Heap.setField]
    rw [if_neg hba]
    simp
  · intro f v
    rw [hc]
    simp only [Heap.setField]
    rw [if_neg (Ne.symm hba), if_neg (by omega : ¬ a = h.next)]
    exact ha

/-- Concrete object for the C10 witness. -/
def exObj : Dict PVal := [("id", PVal.str "A"), ("price", PVal.int 1000000)]

/-- Concrete one-object heap for the C10 witness. -/
def exHeap : Heap :=
  { next := 1, mem := fun a => if a = 0 then some exObj else none }

/-- Witness for C10 on the concrete heap. -/
theorem claim_C10_copy_not_aliased_witness :
    (exHeap.mem 0 = some exObj ∧ 0 < exHeap.next) ∧
    (∃ b, (copyAppend exHeap [] 0).2 = [] ++ [b] ∧ b ≠ 0 ∧
      (copyAppend exHeap [] 0).1.mem b = some exObj ∧
      (copyAppend exHeap [] 0).1.mem 0 = some exObj ∧
      (∀ f v, ((copyAppend exHeap [] 0).1.setField 0 f v).mem b = some exObj) ∧
      (∀ f v, ((copyAppend exHeap [] 0).1.setField b f v).mem 0 = some exObj)) :=
  ⟨⟨by decide, by decide⟩,
   claim_C10_copy_not_aliased exHeap 0 exObj [] (by decide) (by decide)⟩

end SR
